import Mathlib

/-!
# Browser event tracker: exclusion globs, dispatcher, click classification

A shallow embedding of the four tracker builds under `priv/tracker/js`:

* `plausible.exclusions.file-downloads.js`
* `plausible.file-downloads.hash.js`
* `plausible.compat.exclusions.file-downloads.hash.local.js`
* `plausible.compat.exclusions.file-downloads.hash.local.manual.outbound-links.js`

JavaScript strings are sequences of characters; functions that inspect a string
character by character work on `List Char`, records keep `String`.
The browser (location, document, storage, `RegExp`) is the environment of the
program: its values are fields of `Browser`, and the regular-expression engine
is either a parameter (`RegExpEngine`) or the fragment engine `jsRegExp`
defined below.
-/

namespace Tracker

/-! ## Strings -/

/-- Line terminators of ECMAScript: LF, CR, LS, PS. The regex atom `.` does not match them. -/
def isLineTerminator (c : Char) : Bool :=
  c.toNat == 0x0A || c.toNat == 0x0D || c.toNat == 0x2028 || c.toNat == 0x2029

/-- White space as understood by `\s` and by `String.prototype.trim`:
ECMAScript `WhiteSpace` together with `LineTerminator`. -/
def isWhiteSpace (c : Char) : Bool :=
  c.toNat == 0x09 || c.toNat == 0x0A || c.toNat == 0x0B || c.toNat == 0x0C || c.toNat == 0x0D ||
  c.toNat == 0x20 || c.toNat == 0xA0 || c.toNat == 0x1680 ||
  (0x2000 ≤ c.toNat && c.toNat ≤ 0x200A) ||
  c.toNat == 0x2028 || c.toNat == 0x2029 || c.toNat == 0x202F || c.toNat == 0x205F ||
  c.toNat == 0x3000 || c.toNat == 0xFEFF

/-- `\d`. -/
def isDigit (c : Char) : Bool := 0x30 ≤ c.toNat && c.toNat ≤ 0x39

/-- `\w`: ASCII letters, digits and underscore. -/
def isWordChar (c : Char) : Bool :=
  (0x41 ≤ c.toNat && c.toNat ≤ 0x5A) || (0x61 ≤ c.toNat && c.toNat ≤ 0x7A) || isDigit c ||
  c.toNat == 0x5F

/-- `String.prototype.trim`. -/
def trim (s : List Char) : List Char :=
  ((s.dropWhile isWhiteSpace).reverse.dropWhile isWhiteSpace).reverse

/-- `s.split(sep)` for a one-character separator: the pieces between separators;
the empty string splits into one empty piece. -/
def splitOn (sep : Char) : List Char → List (List Char)
  | [] => [[]]
  | c :: t =>
    if c = sep then [] :: splitOn sep t
    else
      match splitOn sep t with
      | [] => [[c]]
      | p :: ps => (c :: p) :: ps

/-- `s.toLowerCase()` on the ASCII range (the only letters compared by the tracker). -/
def toLowerCase (s : List Char) : List Char := s.map Char.toLower

/-! ## Glob compilation

`s[i].trim().replace(/\*\*/g,".*").replace(/([^\.])\*/g,"$1[^\\s/]*")`, wrapped as
`"^" + … + "/?$"`. -/

/-- `.replace(/\*\*/g, ".*")`: every non-overlapping `**`, left to right, becomes `.*`. -/
def replaceStarStar : List Char → List Char
  | [] => []
  | [c] => [c]
  | c :: d :: t =>
    if c = '*' ∧ d = '*' then '.' :: '*' :: replaceStarStar t
    else c :: replaceStarStar (d :: t)

/-- `.replace(/([^\.])\*/g, "$1[^\\s/]*")`: a `*` preceded by a character other than `.`
becomes `[^\s/]*`, the preceding character is kept. -/
def replaceStar : List Char → List Char
  | [] => []
  | [c] => [c]
  | c :: d :: t =>
    if c ≠ '.' ∧ d = '*' then c :: ('[' :: '^' :: '\\' :: 's' :: '/' :: ']' :: '*' :: replaceStar t)
    else c :: replaceStar (d :: t)

/-- The source text handed to `new RegExp(…)` for one exclusion pattern. -/
def globSource (pattern : List Char) : List Char :=
  '^' :: (replaceStar (replaceStarStar (trim pattern)) ++ ['/', '?', '$'])

/-! ## Regular expressions (the fragment of ECMAScript `RegExp` used by exclusion globs) -/

/-- One member of a character class. -/
inductive ClassItem where
  | chr (c : Char)
  | range (lo hi : Char)
  | space (neg : Bool)
  | digit (neg : Bool)
  | word (neg : Bool)
  deriving DecidableEq, Repr

/-- Abstract syntax of the fragment. `bol` and `eol` are the assertions `^` and `$`
(no `m` flag), `dot` is `.`. -/
inductive Re where
  | eps
  | chr (c : Char)
  | dot
  | cls (neg : Bool) (items : List ClassItem)
  | bol
  | eol
  | seq (a b : Re)
  | alt (a b : Re)
  | star (r : Re)
  deriving DecidableEq, Repr

/-- Whether a class member accepts a character. -/
def ClassItem.accepts : ClassItem → Char → Bool
  | .chr c, x => x == c
  | .range lo hi, x => lo.toNat ≤ x.toNat && x.toNat ≤ hi.toNat
  | .space neg, x => isWhiteSpace x != neg
  | .digit neg, x => isDigit x != neg
  | .word neg, x => isWordChar x != neg

/-- Whether the class `[items]` (or `[^items]` when `neg`) accepts a character. -/
def classAccepts (neg : Bool) (items : List ClassItem) (x : Char) : Bool :=
  items.any (fun i => i.accepts x) != neg

/-- Greedy iteration: the remainders reachable by repeating `step`; an iteration that
consumes nothing is rejected, as in the ECMAScript `RepeatMatcher`. -/
def starEnds (step : List Char → List (List Char)) : Nat → List Char → List (List Char)
  | 0, s => [s]
  | fuel + 1, s =>
    s :: ((step s).filter (fun t => t.length < s.length)).flatMap (starEnds step fuel)

/-- All remainders of `s` left after the expression matches a prefix of `s`;
`n` is the length of the whole input (position 0 is where `s.length = n`). -/
def Re.ends (n : Nat) : Re → List Char → List (List Char)
  | .eps, s => [s]
  | .chr c, s =>
    match s with
    | [] => []
    | x :: t => if x = c then [t] else []
  | .dot, s =>
    match s with
    | [] => []
    | x :: t => if isLineTerminator x then [] else [t]
  | .cls neg items, s =>
    match s with
    | [] => []
    | x :: t => if classAccepts neg items x then [t] else []
  | .bol, s => if s.length = n then [s] else []
  | .eol, s => if s.isEmpty then [s] else []
  | .seq a b, s => (a.ends n s).flatMap (fun t => b.ends n t)
  | .alt a b, s => a.ends n s ++ b.ends n s
  | .star r, s => starEnds (fun t => r.ends n t) s.length s

/-- Whether the expression matches starting at some index of the input:
`RegExp.prototype.test`, and also whether `String.prototype.match` returns a match. -/
def Re.test (r : Re) (input : List Char) : Bool :=
  (List.range (input.length + 1)).any (fun i => !(r.ends input.length (input.drop i)).isEmpty)

/-- `r+`. -/
def Re.plus (r : Re) : Re := .seq r (.star r)

/-- `r?`. -/
def Re.opt (r : Re) : Re := .alt r .eps

/-- A literal run of characters. -/
def Re.lit : List Char → Re
  | [] => .eps
  | c :: t => .seq (.chr c) (Re.lit t)

/-! ### Reading the source text of a regular expression

A left-to-right reader with an explicit stack of open groups. Constructs of
ECMAScript outside the fragment (braced quantifiers, look-around, named groups,
back-references, word boundaries, `\c`, `\x`, `\u`, `\k`, digit escapes) are reported
as `unsupported`; `syntaxError` stands for the `SyntaxError` thrown by `new RegExp`. -/

/-- Why no expression of the fragment was produced. -/
inductive RegExpError where
  | syntaxError
  | unsupported
  deriving DecidableEq, Repr

/-- What a backslash escape denotes. -/
inductive Escape where
  | char (c : Char)
  | set (i : ClassItem)
  | other
  deriving DecidableEq, Repr

/-- The escape `\c` for a character `c`, inside (`inClass`) or outside a class. -/
def readEscape (inClass : Bool) (c : Char) : Escape :=
  if c = 'd' then .set (.digit false)
  else if c = 'D' then .set (.digit true)
  else if c = 's' then .set (.space false)
  else if c = 'S' then .set (.space true)
  else if c = 'w' then .set (.word false)
  else if c = 'W' then .set (.word true)
  else if c = 'f' then .char (Char.ofNat 0x0C)
  else if c = 'n' then .char (Char.ofNat 0x0A)
  else if c = 'r' then .char (Char.ofNat 0x0D)
  else if c = 't' then .char (Char.ofNat 0x09)
  else if c = 'v' then .char (Char.ofNat 0x0B)
  else if c = 'b' then (if inClass then .char (Char.ofNat 0x08) else .other)
  else if c = 'B' ∨ c = 'c' ∨ c = 'x' ∨ c = 'u' ∨ c = 'k' ∨ isDigit c then .other
  else .char c

/-- What the class reader holds back while a range may still follow. -/
inductive Pend where
  | none
  | lo (c : Char)
  | dash (c : Char)
  | set
  | setDash
  deriving DecidableEq, Repr

/-- State of the class reader: members read so far (latest first), pending atom,
and whether the previous character was a backslash. -/
structure ClassState where
  items : List ClassItem
  pend : Pend
  esc : Bool
  deriving DecidableEq, Repr

/-- A single-character class atom arrives. -/
def ClassState.pushChar (st : ClassState) (c : Char) : Except RegExpError ClassState :=
  match st.pend with
  | .none => .ok { items := st.items, pend := .lo c, esc := false }
  | .set => .ok { items := st.items, pend := .lo c, esc := false }
  | .lo c0 => .ok { items := .chr c0 :: st.items, pend := .lo c, esc := false }
  | .dash c0 =>
    if c0.toNat ≤ c.toNat then .ok { items := .range c0 c :: st.items, pend := .none, esc := false }
    else .error .syntaxError
  | .setDash => .ok { items := .chr c :: .chr '-' :: st.items, pend := .none, esc := false }

/-- A class escape such as `\s` arrives. -/
def ClassState.pushSet (st : ClassState) (i : ClassItem) : ClassState :=
  match st.pend with
  | .none => { items := i :: st.items, pend := .set, esc := false }
  | .set => { items := i :: st.items, pend := .set, esc := false }
  | .lo c0 => { items := i :: .chr c0 :: st.items, pend := .set, esc := false }
  | .dash c0 => { items := i :: .chr '-' :: .chr c0 :: st.items, pend := .none, esc := false }
  | .setDash => { items := i :: .chr '-' :: st.items, pend := .none, esc := false }

/-- One character of a class body. -/
def ClassState.step (st : ClassState) (c : Char) : Except RegExpError ClassState :=
  if st.esc then
    match readEscape true c with
    | .char x => st.pushChar x
    | .set i => .ok (st.pushSet i)
    | .other => .error .unsupported
  else if c = '\\' then .ok { st with esc := true }
  else if c = '-' then
    match st.pend with
    | .lo c0 => .ok { st with pend := .dash c0 }
    | .set => .ok { st with pend := .setDash }
    | _ => st.pushChar '-'
  else st.pushChar c

/-- The members of a class once its body is exhausted. -/
def ClassState.finish (st : ClassState) : List ClassItem :=
  match st.pend with
  | .none => st.items
  | .set => st.items
  | .lo c0 => .chr c0 :: st.items
  | .dash c0 => .chr '-' :: .chr c0 :: st.items
  | .setDash => .chr '-' :: st.items

/-- The class denoted by the text between `[` and `]`. -/
def readClass (body : List Char) : Except RegExpError Re :=
  let neg := body.head? = some '^'
  let rest := if neg then body.tail else body
  match rest.foldlM ClassState.step { items := [], pend := .none, esc := false } with
  | .ok st => .ok (.cls neg st.finish.reverse)
  | .error e => .error e

/-- An open group (or the whole pattern): finished alternatives and the terms of the
current alternative, both latest first. -/
structure Frame where
  alts : List Re
  terms : List Re
  deriving DecidableEq, Repr

/-- The terms of one alternative in source order. -/
def mkSeq (terms : List Re) : Re := terms.foldl (fun acc t => Re.seq t acc) .eps

/-- The disjunction held by a frame. -/
def Frame.close (f : Frame) : Re := f.alts.foldl (fun acc a => Re.alt a acc) (mkSeq f.terms)

/-- Whether a quantifier may follow the last term. -/
inductive Last where
  | none
  | atom
  | quantified
  deriving DecidableEq, Repr

/-- Where the reader is. -/
inductive Mode where
  | normal
  | escape
  | group
  | groupQ
  | cls (body : List Char) (esc : Bool)
  deriving DecidableEq, Repr

/-- State of the reader. -/
structure PState where
  stack : List Frame
  cur : Frame
  last : Last
  mode : Mode
  deriving DecidableEq, Repr

/-- Append an atom to the current alternative. -/
def PState.atom (st : PState) (r : Re) : PState :=
  { st with cur := { st.cur with terms := r :: st.cur.terms }, last := .atom, mode := .normal }

/-- Append an assertion (`^`, `$`): nothing a quantifier could repeat. -/
def PState.assertion (st : PState) (r : Re) : PState :=
  { st with cur := { st.cur with terms := r :: st.cur.terms }, last := .none, mode := .normal }

/-- Apply a quantifier to the last atom. -/
def PState.quantify (st : PState) (q : Re → Re) : Except RegExpError PState :=
  match st.last, st.cur.terms with
  | .atom, t :: ts => .ok { st with cur := { st.cur with terms := q t :: ts }, last := .quantified }
  | _, _ => .error .syntaxError

/-- Open a group. -/
def PState.openGroup (st : PState) : PState :=
  { stack := st.cur :: st.stack, cur := { alts := [], terms := [] }, last := .none, mode := .normal }

/-- One character in normal mode. -/
def PState.stepNormal (st : PState) (c : Char) : Except RegExpError PState :=
  if c = '\\' then .ok { st with mode := .escape }
  else if c = '[' then .ok { st with mode := .cls [] false }
  else if c = '(' then .ok { st with mode := .group }
  else if c = ')' then
    match st.stack with
    | [] => .error .syntaxError
    | parent :: rest =>
      .ok { stack := rest, cur := { parent with terms := st.cur.close :: parent.terms },
            last := .atom, mode := .normal }
  else if c = '|' then
    .ok { st with cur := { alts := mkSeq st.cur.terms :: st.cur.alts, terms := [] }, last := .none }
  else if c = '^' then .ok (st.assertion .bol)
  else if c = '$' then .ok (st.assertion .eol)
  else if c = '.' then .ok (st.atom .dot)
  else if c = '*' then st.quantify Re.star
  else if c = '+' then st.quantify Re.plus
  else if c = '?' then
    (if st.last = .quantified then .ok { st with last := .none } else st.quantify Re.opt)
  else if c = '\x7b' then .error .unsupported
  else .ok (st.atom (.chr c))

/-- One character of the source text. -/
def PState.step (st : PState) (c : Char) : Except RegExpError PState :=
  match st.mode with
  | .normal => st.stepNormal c
  | .escape =>
    match readEscape false c with
    | .char x => .ok (st.atom (.chr x))
    | .set i => .ok (st.atom (.cls false [i]))
    | .other => .error .unsupported
  | .group => if c = '?' then .ok { st with mode := .groupQ } else st.openGroup.stepNormal c
  | .groupQ => if c = ':' then .ok st.openGroup else .error .unsupported
  | .cls body esc =>
    if esc then .ok { st with mode := .cls (c :: body) false }
    else if c = '\\' then .ok { st with mode := .cls (c :: body) true }
    else if c = ']' then
      match readClass body.reverse with
      | .ok r => .ok (st.atom r)
      | .error e => .error e
    else .ok { st with mode := .cls (c :: body) false }

/-- The reader before the first character. -/
def PState.init : PState :=
  { stack := [], cur := { alts := [], terms := [] }, last := .none, mode := .normal }

/-- The expression once the source text is exhausted. -/
def PState.finish (st : PState) : Except RegExpError Re :=
  match st.mode, st.stack with
  | .normal, [] => .ok st.cur.close
  | _, _ => .error .syntaxError

/-- `new RegExp(src)` on the fragment. -/
def parseRegExp (src : List Char) : Except RegExpError Re :=
  match src.foldlM PState.step PState.init with
  | .ok st => st.finish
  | .error e => .error e

/-- The engine behind `new RegExp(src)`: `none` when the constructor throws, otherwise
the predicate "the expression finds a match in this input". -/
abbrev RegExpEngine := List Char → Option (List Char → Bool)

/-- The fragment engine: `parseRegExp` followed by `Re.test`; a source text outside the
fragment yields no expression. -/
def jsRegExp : RegExpEngine := fun src =>
  match parseRegExp src with
  | .ok r => some (fun input => r.test input)
  | .error _ => none

/-- The literal `/^localhost$|^127(\.[0-9]+){0,2}\.[0-9]+$|^\[::1?\]$/`; the bounded
repetition `X{0,2}` is written `(X(X)?)?`. -/
def localhostRe : Re :=
  let num : Re := Re.plus (.cls false [.range '0' '9'])
  let part : Re := .seq (.chr '.') num
  .alt (.seq .bol (.seq (Re.lit "localhost".toList) .eol))
    (.alt (.seq .bol (.seq (Re.lit "127".toList)
            (.seq (Re.opt (.seq part (Re.opt part))) (.seq part .eol))))
          (.seq .bol (.seq (Re.lit "[::".toList) (.seq (Re.opt (.chr '1')) (.seq (.chr ']') .eol)))))

/-! ## Values, options, payload -/

/-- JavaScript values that reach the tracker through `options`. A number is an integer
in the safe range, given by sign and magnitude below `2^53` (so `-0` is a value); an
object is a flat map of string properties, given by the sequence of its property
definitions `key: value` (a later definition of a key replaces the value of the
earlier one). -/
inductive JSVal where
  | undefined
  | null
  | bool (b : Bool)
  | number (negative : Bool) (magnitude : Fin 9007199254740992)
  | string (s : String)
  | object (fields : List (String × String))
  | function (id : Nat)
  deriving DecidableEq, Repr

/-- Truthiness (`ToBoolean`). -/
def JSVal.truthy : JSVal → Bool
  | .undefined => false
  | .null => false
  | .bool b => b
  | .number _ m => m.val != 0
  | .string s => s != ""
  | .object _ => true
  | .function _ => true

/-- The `options` argument of the entry point: `meta`, `props`, `callback`, `u`
(a missing property is `undefined`). -/
structure Options where
  meta : JSVal
  props : JSVal
  callback : JSVal
  u : JSVal
  deriving DecidableEq, Repr

/-- JSON text of a string: quotes, with `"`, `\` and control characters escaped. -/
def jsonQuote (s : List Char) : List Char :=
  let esc (c : Char) : List Char :=
    if c = '"' then ['\\', '"']
    else if c = '\\' then ['\\', '\\']
    else if c.toNat = 0x08 then ['\\', 'b']
    else if c.toNat = 0x09 then ['\\', 't']
    else if c.toNat = 0x0A then ['\\', 'n']
    else if c.toNat = 0x0C then ['\\', 'f']
    else if c.toNat = 0x0D then ['\\', 'r']
    else if c.toNat < 0x20 then
      ['\\', 'u', '0', '0', Nat.digitChar (c.toNat / 16), Nat.digitChar (c.toNat % 16)]
    else [c]
  '"' :: (s.flatMap esc ++ ['"'])

/-- JSON text of the properties of a flat object, comma separated. -/
def jsonFields : List (String × String) → List Char
  | [] => []
  | [(k, x)] => jsonQuote k.toList ++ ':' :: jsonQuote x.toList
  | (k, x) :: rest => jsonQuote k.toList ++ ':' :: jsonQuote x.toList ++ ',' :: jsonFields rest

/-- The array index a property key denotes, if any: the key is the canonical decimal
text of a number below `2^32 - 1`. -/
def arrayIndex (key : String) : Option Nat :=
  let cs := key.toList
  if cs.isEmpty || !cs.all isDigit || (cs.head? == some '0' && cs.length != 1) then none
  else
    let n := cs.foldl (fun acc c => acc * 10 + (c.toNat - 0x30)) 0
    if n < 4294967295 then some n else none

/-- One property definition applied to the properties defined so far (in creation
order): an existing key keeps its place and takes the new value, a new key goes last. -/
def defineProperty (props : List (String × String)) (key value : String) :
    List (String × String) :=
  if props.any (fun q => q.1 == key) then
    props.map (fun q => if q.1 == key then (key, value) else q)
  else props ++ [(key, value)]

/-- A property with an array-index key put in its place among those already ordered by
ascending index. -/
def insertIndexed (n : Nat) (q : String × String) :
    List (Nat × String × String) → List (Nat × String × String)
  | [] => [(n, q)]
  | (m, r) :: rest => if n < m then (n, q) :: (m, r) :: rest else (m, r) :: insertIndexed n q rest

/-- The own properties of an object in enumeration order: array-index keys in ascending
numeric order, then the other keys in creation order. -/
def ownProperties (fields : List (String × String)) : List (String × String) :=
  let defined := fields.foldl (fun acc q => defineProperty acc q.1 q.2) []
  let indexed := defined.foldl
    (fun acc q =>
      match arrayIndex q.1 with
      | some n => insertIndexed n q acc
      | none => acc) []
  indexed.map (fun x => x.2) ++ defined.filter (fun q => (arrayIndex q.1).isNone)

/-- `JSON.stringify(v)`; `undefined` and functions have no JSON text. -/
def jsonStringify : JSVal → Option String
  | .undefined => none
  | .function _ => none
  | .null => some "null"
  | .bool b => some (if b then "true" else "false")
  | .number negative m =>
    some (if negative && m.val != 0 then "-" ++ toString m.val else toString m.val)
  | .string s => some (String.mk (jsonQuote s.toList))
  | .object fields =>
    some (String.mk ('\x7b' :: (jsonFields (ownProperties fields) ++ ['\x7d'])))

/-- The object serialised into the request body. A field that is `none` is absent
(for `r`: `none` is the JSON `null`, the field itself is always present). -/
structure Payload where
  n : String
  u : JSVal
  d : Option String
  r : Option String
  w : Nat
  m : Option String
  p : Option String
  h : Option Nat
  deriving DecidableEq, Repr

/-- One `XMLHttpRequest`: `open("POST", url, true)`, header `Content-Type: text/plain`,
`send(JSON.stringify(body))`; `options` is the `t` captured by its
`onreadystatechange` handler. -/
structure Request where
  url : String
  body : Payload
  options : Option Options
  deriving DecidableEq, Repr

/-- The handler `function(){4==n.readyState&&t&&t.callback&&t.callback()}`:
whether `options.callback` is invoked when the request reaches `readyState`. -/
def Request.onreadystatechange (req : Request) (readyState : Nat) : Bool :=
  readyState == 4 &&
    match req.options with
    | some t => t.callback.truthy
    | none => false

/-! ## Browser state and configuration -/

/-- Reading `window.localStorage.plausible_ignore`. -/
inductive StorageRead where
  | throws
  | value (v : Option String)
  deriving DecidableEq, Repr

/-- What the tracker reads from `window`, `location`, `document` and `navigator`. -/
structure Browser where
  hostname : String
  protocol : String
  pathname : String
  href : String
  host : String
  referrer : String
  innerWidth : Nat
  phantom : Bool
  nightmare : Bool
  webdriver : Bool
  cypress : Bool
  storage : StorageRead
  visibilityState : String
  hasPushState : Bool
  deriving DecidableEq, Repr

/-- The features compiled into a build; the file name lists them (`local` in a file
name means the loopback check is left out). -/
structure Variant where
  compat : Bool
  exclusions : Bool
  hash : Bool
  localhostCheck : Bool
  manual : Bool
  outboundLinks : Bool
  deriving DecidableEq, Repr

/-- Build `plausible.exclusions.file-downloads.js`. -/
def exclusionsFileDownloads : Variant :=
  { compat := false, exclusions := true, hash := false, localhostCheck := true,
    manual := false, outboundLinks := false }

/-- Build `plausible.file-downloads.hash.js`. -/
def fileDownloadsHash : Variant :=
  { compat := false, exclusions := false, hash := true, localhostCheck := true,
    manual := false, outboundLinks := false }

/-- Build `plausible.compat.exclusions.file-downloads.hash.local.js`. -/
def compatExclusionsFileDownloadsHashLocal : Variant :=
  { compat := true, exclusions := true, hash := true, localhostCheck := false,
    manual := false, outboundLinks := false }

/-- Build `plausible.compat.exclusions.file-downloads.hash.local.manual.outbound-links.js`. -/
def compatExclusionsFileDownloadsHashLocalManualOutboundLinks : Variant :=
  { compat := true, exclusions := true, hash := true, localhostCheck := false,
    manual := true, outboundLinks := true }

/-- The variables the installation preamble leaves to the closures: the endpoint,
the `data-domain` attribute, the exclusion list (`s`, `c`) and the file extensions. -/
structure Config where
  endpoint : String
  domain : Option String
  exclude : Option (List String)
  fileTypes : List String
  deriving DecidableEq, Repr

/-! ## The dispatcher -/

/-- Result of the exclusion loop. -/
inductive Exclusion where
  | pass
  | excluded
  | threw
  deriving DecidableEq, Repr

/-- The loop `for(i=0;i<s.length;i++) if("pageview"==e && o.pathname.match(new RegExp(…)))
return c("exclusion rule")`. -/
def exclusionLoop (rx : RegExpEngine) (name : String) (pathname : String) :
    List String → Exclusion
  | [] => .pass
  | pat :: rest =>
    if name = "pageview" then
      match rx (globSource pat.toList) with
      | none => .threw
      | some m => if m pathname.toList then .excluded else exclusionLoop rx name pathname rest
    else exclusionLoop rx name pathname rest

/-- The guard `if(s)` around the loop. -/
def exclusionCheck (rx : RegExpEngine) (cfg : Config) (name : String) (pathname : String) :
    Exclusion :=
  match cfg.exclude with
  | none => .pass
  | some s => exclusionLoop rx name pathname s

/-- What one call of the dispatcher did. -/
inductive DispatchResult where
  | ignored
  | warned (reason : String)
  | sent (req : Request)
  | threw
  deriving DecidableEq, Repr

/-- The payload object `a` built by the dispatcher. -/
def buildPayload (v : Variant) (cfg : Config) (w : Browser) (name : String)
    (t : Option Options) : Payload :=
  { n := name
    u := match t with
      | some o => if v.manual && o.u.truthy then o.u else .string w.href
      | none => .string w.href
    d := cfg.domain
    r := if w.referrer = "" then none else some w.referrer
    w := w.innerWidth
    m := match t with
      | some o => if o.meta.truthy then jsonStringify o.meta else none
      | none => none
    p := match t with
      | some o => if o.props.truthy then jsonStringify o.props else none
      | none => none
    h := if v.hash then some 1 else none }

/-- The dispatcher (`e`, `a` or `r` in the builds), called with an event name and
`options` (`none` when the argument is missing or falsy). -/
def dispatch (v : Variant) (rx : RegExpEngine) (cfg : Config) (w : Browser) (name : String)
    (t : Option Options) : DispatchResult :=
  if v.localhostCheck && (localhostRe.test w.hostname.toList || w.protocol == "file:") then
    .warned "localhost"
  else if w.phantom || w.nightmare || w.webdriver || w.cypress then .ignored
  else if w.storage = .value (some "true") then .warned "localStorage flag"
  else
    match (if v.exclusions then exclusionCheck rx cfg name w.pathname else .pass) with
    | .excluded => .warned "exclusion rule"
    | .threw => .threw
    | .pass => .sent { url := cfg.endpoint, body := buildPayload v cfg w name t, options := t }

/-- The requests of a run, in order. -/
def requests : List DispatchResult → List Request
  | [] => []
  | .sent req :: rest => req :: requests rest
  | _ :: rest => requests rest

/-- The `console.warn` lines of a run, in order (`c`/`s`/`p` in the builds). -/
def warnings : List DispatchResult → List String
  | [] => []
  | .warned reason :: rest => ("Ignoring Event: " ++ reason) :: warnings rest
  | _ :: rest => warnings rest

/-- A call of the public entry point: `plausible(name, options)`. -/
structure Call where
  name : String
  options : Option Options
  deriving DecidableEq, Repr

/-- Calls made one after the other; a call that throws ends the run. -/
def runCalls (f : Call → DispatchResult) : List Call → List DispatchResult
  | [] => []
  | c :: rest =>
    match f c with
    | .threw => [.threw]
    | r => r :: runCalls f rest

/-- How often `options.callback` runs when the browser delivers the given
(request index, ready state) notifications to the requests of a run. -/
def callbackRuns (reqs : List Request) (events : List (Nat × Nat)) : Nat :=
  (events.filter (fun ev =>
    match reqs.get? ev.1 with
    | some req => req.onreadystatechange ev.2
    | none => false)).length

/-! ## Click handlers -/

/-- A DOM node as the handlers see it: `tagName` (`none` when undefined), and the
anchor properties `href`, `host`, `target` (empty when missing). -/
structure Node where
  tagName : Option String
  href : String
  host : String
  target : String
  deriving DecidableEq, Repr

/-- A `click`/`auxclick` event; `path` is `e.target` followed by its `parentNode` chain
up to the root. -/
structure MouseEvent where
  type : String
  which : Nat
  ctrlKey : Bool
  metaKey : Bool
  shiftKey : Bool
  altKey : Bool
  path : List Node
  deriving DecidableEq, Repr

/-- What a handler does, in order. `track` is a call of the global entry point,
`setTimeout ms href` schedules `location.href = href` after `ms` milliseconds. -/
inductive Action where
  | track (name : String) (options : Options)
  | setTimeout (ms : Nat) (href : String)
  | preventDefault
  deriving DecidableEq, Repr

/-- The loop condition negated: `tagName` is defined, lower-cases to `a`, and `href`
is non-empty. -/
def Node.isLink (n : Node) : Bool :=
  match n.tagName with
  | none => false
  | some tag => toLowerCase tag.toList == ['a'] && n.href != ""

/-- The walk `for(a=e.target; a&&(void 0===a.tagName||"a"!=a.tagName.toLowerCase()||!a.href);)
a=a.parentNode`. -/
def findAnchor : List Node → Option Node
  | [] => none
  | n :: rest => if n.isLink then some n else findAnchor rest

/-- `target.match(/^_(self|parent|top)$/i)`. -/
def targetIsSelfParentTop (target : String) : Bool :=
  toLowerCase target.toList == "_self".toList || toLowerCase target.toList == "_parent".toList ||
    toLowerCase target.toList == "_top".toList

/-- `{props:{url:href}}`. -/
def urlProps (href : String) : Options :=
  { meta := .undefined, props := .object [("url", href)], callback := .undefined, u := .undefined }

/-- The tail shared by both handlers:
`(n||r)&&plausible(name,{props:{url:a.href}}),
 a.target&&!a.target.match(…)||e.ctrlKey||e.metaKey||e.shiftKey||!r||
 (setTimeout(function(){o.href=a.href},150),e.preventDefault())`. -/
def trackAndDefer (name : String) (e : MouseEvent) (a : Node) : List Action :=
  let middle := e.type == "auxclick" && e.which == 2
  let click := e.type == "click"
  (if middle || click then [Action.track name (urlProps a.href)] else []) ++
  (if (a.target != "" && !targetIsSelfParentTop a.target) || e.ctrlKey || e.metaKey ||
      e.shiftKey || !click then []
   else [Action.setTimeout 150 a.href, Action.preventDefault])

/-- `href.split(".").pop()`. -/
def extension (href : String) : String :=
  String.mk ((splitOn '.' href.toList).getLast?.getD [])

/-- The file-download handler (`i`, `u` or `d` in the builds). -/
def fileDownloadHandler (fileTypes : List String) (e : MouseEvent) : List Action :=
  match findAnchor e.path with
  | none => []
  | some a =>
    if a.href != "" && fileTypes.any (fun x => x == extension a.href) then
      trackAndDefer "File Download" e a
    else []

/-- The outbound-link handler (`i` in the outbound-links build). -/
def outboundHandler (w : Browser) (e : MouseEvent) : List Action :=
  match findAnchor e.path with
  | none => []
  | some a =>
    if a.href != "" && a.host != "" && a.host != w.host then
      trackAndDefer "Outbound Link: Click" e a
    else []

/-- The handlers registered on `click` and `auxclick`, in registration order. -/
def clickHandlers (v : Variant) (cfg : Config) (w : Browser) (e : MouseEvent) : List Action :=
  (if v.outboundLinks then outboundHandler w e else []) ++ fileDownloadHandler cfg.fileTypes e

/-! ## Installation -/

/-- The script element the configuration is read from. `origin` is
`new URL(src).origin` (`none` when the constructor throws); an attribute that is
missing reads `none` (`getAttribute` returns `null`). -/
structure ScriptEl where
  src : String
  origin : Option String
  dataApi : Option String
  dataDomain : Option String
  dataExclude : Option String
  fileTypes : Option String
  deriving DecidableEq, Repr

/-- The extensions tracked when `file-types` is not given. -/
def defaultFileTypes : List String :=
  ["pdf", "xlsx", "docx", "txt", "rtf", "csv", "exe", "key", "pps", "ppt", "pptx", "7z", "pkg",
   "rar", "gz", "zip", "avi", "mov", "mp4", "mpeg", "wmv", "midi", "mp3", "wav", "wma"]

/-- `x.split(",")` on strings. -/
def splitComma (x : String) : List String := (splitOn ',' x.toList).map String.mk

/-- The endpoint of the compat builds: `e=p.src.split("/"), e[0]+"//"+e[2]+"/api/event"`. -/
def compatEndpoint (src : String) : String :=
  let e := (splitOn '/' src.toList).map String.mk
  (e.get? 0).getD "undefined" ++ "//" ++ (e.get? 2).getD "undefined" ++ "/api/event"

/-- The installation preamble; `none` is the `TypeError` raised when the script
element is `null`, a needed attribute is missing, or `new URL` fails. -/
def readConfig (v : Variant) (script : Option ScriptEl) : Option Config :=
  match script with
  | none => none
  | some p =>
    let api : Option String :=
      match p.dataApi with
      | some a => if a != "" then some a else none
      | none => none
    let endpoint : Option String :=
      match api with
      | some a => some a
      | none =>
        if v.compat then some (compatEndpoint p.src)
        else p.origin.map (fun o => o ++ "/api/event")
    let exclude : Option (Option (List String)) :=
      if v.exclusions then p.dataExclude.map (fun x => some (splitComma x)) else some none
    let fileTypes : List String :=
      match p.fileTypes with
      | some t => if t != "" then splitComma t else defaultFileTypes
      | none => defaultFileTypes
    match endpoint, exclude with
    | some l, some s => some { endpoint := l, domain := p.dataDomain, exclude := s, fileTypes := fileTypes }
    | _, _ => none

/-- The global `window.plausible`: missing, the queueing stub with its `q`, or the
dispatcher. -/
inductive EntryPoint where
  | absent
  | stub (q : List Call)
  | dispatcher
  deriving DecidableEq, Repr

/-- `window.plausible && window.plausible.q || []`. -/
def EntryPoint.queue : EntryPoint → List Call
  | .stub q => q
  | _ => []

/-- The host page when the tracker script runs. -/
structure Page where
  script : Option ScriptEl
  entry : EntryPoint
  browser : Browser
  deriving DecidableEq, Repr

/-- The page after the tracker script ran: whether it ended by an exception, the
global entry point, what the dispatcher did (in order), the event types listened
to, and the path recorded by the page-view trigger. -/
structure Installed where
  threw : Bool
  entry : EntryPoint
  results : List DispatchResult
  listeners : List String
  lastPath : Option String
  deriving DecidableEq, Repr

/-- The listeners added for automatic page views, before the initial page view. -/
def observerListeners (v : Variant) (w : Browser) : List String :=
  (if v.hash then ["hashchange"] else if w.hasPushState then ["popstate"] else []) ++
  (if w.visibilityState = "prerender" then ["visibilitychange"] else [])

/-- The tracker script, run once on a page. -/
def install (v : Variant) (rx : RegExpEngine) (page : Page) : Installed :=
  match readConfig v page.script with
  | none => { threw := true, entry := page.entry, results := [], listeners := [], lastPath := none }
  | some cfg =>
    let clicks : List String :=
      (if v.outboundLinks then ["click", "auxclick"] else []) ++ ["click", "auxclick"]
    let replayed := runCalls (fun c => dispatch v rx cfg page.browser c.name c.options)
      page.entry.queue
    if replayed.getLast? = some .threw then
      { threw := true, entry := .dispatcher, results := replayed, listeners := clicks,
        lastPath := none }
    else if v.manual then
      { threw := false, entry := .dispatcher, results := replayed, listeners := clicks,
        lastPath := none }
    else if page.browser.visibilityState = "prerender" then
      { threw := false, entry := .dispatcher, results := replayed,
        listeners := clicks ++ observerListeners v page.browser, lastPath := none }
    else
      let first := dispatch v rx cfg page.browser "pageview" none
      { threw := first = .threw, entry := .dispatcher, results := replayed ++ [first],
        listeners := clicks ++ observerListeners v page.browser,
        lastPath := some page.browser.pathname }

/-- Whether the matcher compiled from an exclusion pattern accepts a path, with the
fragment engine; `none` when no matcher is produced. -/
def globMatches (pattern path : String) : Option Bool :=
  (jsRegExp (globSource pattern.toList)).map (fun m => m path.toList)

/-- The dispatcher is not stopped before the exclusion loop: no loopback context
(where that check is compiled in), no automation marker, no opt-out flag. -/
def Browser.unsuppressed (v : Variant) (w : Browser) : Prop :=
  (v.localhostCheck && (localhostRe.test w.hostname.toList || w.protocol == "file:")) = false ∧
  (w.phantom || w.nightmare || w.webdriver || w.cypress) = false ∧
  w.storage ≠ .value (some "true")

/-! ## Sample inputs -/

/-- A visitor's browser on `https://example.com/blog/2024/post`: no automation marker,
no opt-out flag, page visible. -/
def sampleBrowser : Browser :=
  { hostname := "example.com", protocol := "https:", pathname := "/blog/2024/post",
    href := "https://example.com/blog/2024/post", host := "example.com", referrer := "",
    innerWidth := 1280, phantom := false, nightmare := false, webdriver := false,
    cypress := false, storage := .value none, visibilityState := "visible",
    hasPushState := true }

/-- A configuration excluding `/admin` and everything under `/blog/`. -/
def sampleConfig : Config :=
  { endpoint := "https://stats.example.com/api/event", domain := some "example.com",
    exclude := some ["/admin", "/blog/**"], fileTypes := defaultFileTypes }

/-! ## Auxiliary expressions used to state what the reader produces -/

/-- The literal characters `cs` followed by `r`. -/
def litThen (cs : List Char) (r : Re) : Re := cs.foldr (fun c acc => Re.seq (.chr c) acc) r

/-- The atom the reader produces for a character that is `.` or an ordinary character. -/
def atomOf (c : Char) : Re := if c = '.' then .dot else .chr c

/-- The atoms of `cs` followed by `r`. -/
def atomsThen (cs : List Char) (r : Re) : Re := cs.foldr (fun c acc => Re.seq (atomOf c) acc) r

/-- What the reader produces for the suffix `/?$` of a compiled glob. -/
def globTail : Re := .seq (Re.opt (.chr '/')) (.seq .eol .eps)

/-- An ordinary path character: not white space and none of the characters
that are special in a regular expression. -/
def isOrdinary (c : Char) : Bool :=
  !isWhiteSpace c && c != '^' && c != '$' && c != '\\' && c != '.' && c != '*' && c != '+' &&
    c != '?' && c != '(' && c != ')' && c != '[' && c != ']' && c != '\x7b' && c != '\x7d' &&
    c != '|'

/-- How a path character `x` relates to the pattern character `a` it is matched against
by the compiled matcher: a `.` of the pattern stands for any character but a line
terminator, every other character for itself. -/
def charAgrees (a x : Char) : Prop := if a = '.' then isLineTerminator x = false else x = a

/-- The dispatcher is stopped before the exclusion loop: an automation marker is
present, or the opt-out flag reads `"true"`, or (in the builds with that check) the
host is loopback or the protocol is `file:`. -/
def Browser.suppressed (v : Variant) (w : Browser) : Prop :=
  (w.phantom || w.nightmare || w.webdriver || w.cypress) = true ∨
  w.storage = .value (some "true") ∨
  (v.localhostCheck = true ∧
    (localhostRe.test w.hostname.toList || w.protocol == "file:") = true)

/-- The sample browser on the root page `https://example.com/`. -/
def rootBrowser : Browser :=
  { sampleBrowser with pathname := "/", href := "https://example.com/" }

/-- A script element of the exclusions build whose `data-exclude` attribute is empty. -/
def emptyExcludeScript : ScriptEl :=
  { src := "https://stats.example.com/js/plausible.exclusions.file-downloads.js",
    origin := some "https://stats.example.com", dataApi := none,
    dataDomain := some "example.com", dataExclude := some "", fileTypes := none }

/-- The sample browser driven by WebDriver. -/
def webdriverBrowser : Browser := { sampleBrowser with webdriver := true }

/-- Options carrying only a callback. -/
def callbackOptions : Options :=
  { meta := .undefined, props := .undefined, callback := .function 0, u := .undefined }

/-- A configuration without exclusion patterns that stop the sample page. -/
def openConfig : Config :=
  { endpoint := "https://stats.example.com/api/event", domain := some "example.com",
    exclude := some ["/admin"], fileTypes := defaultFileTypes }

/-- A script element of the exclusions build excluding `/admin`. -/
def adminExcludeScript : ScriptEl :=
  { src := "https://stats.example.com/js/plausible.exclusions.file-downloads.js",
    origin := some "https://stats.example.com", dataApi := none,
    dataDomain := some "example.com", dataExclude := some "/admin", fileTypes := none }

/-- A page on which `plausible("a")` and `plausible("b")` were queued before the
tracker script runs. -/
def queuedPage : Page :=
  { script := some adminExcludeScript,
    entry := .stub [{ name := "a", options := none }, { name := "b", options := none }],
    browser := sampleBrowser }

/-- Following the words of the specification: the extension of the link's path, that is
the text after the final `.` of the URL once its query string and fragment are left
out. -/
def pathExtensionSpec (href : String) : String :=
  extension (String.mk (href.toList.takeWhile (fun c => c != '?' && c != '#')))

/-- An anchor element `<a href=… target=…>`. -/
def anchorTo (href host target : String) : Node :=
  { tagName := some "A", href := href, host := host, target := target }

/-- A primary click without modifier keys; `path` is the target and its ancestors. -/
def plainClick (path : List Node) : MouseEvent :=
  { type := "click", which := 1, ctrlKey := false, metaKey := false, shiftKey := false,
    altKey := false, path := path }

/-- A click with the middle button. -/
def middleClick (path : List Node) : MouseEvent :=
  { type := "auxclick", which := 2, ctrlKey := false, metaKey := false, shiftKey := false,
    altKey := false, path := path }

/-- A primary click with only the alt key held. -/
def altClick (path : List Node) : MouseEvent :=
  { type := "click", which := 1, ctrlKey := false, metaKey := false, shiftKey := false,
    altKey := true, path := path }

/-- A `span` element, as found inside a link. -/
def spanNode : Node := { tagName := some "SPAN", href := "", host := "", target := "" }

/-- A link to a PDF on the visited site, target attribute empty. -/
def pdfLink : Node := anchorTo "https://example.com/files/report.pdf" "example.com" ""

/-- A link to a PDF whose URL carries a query string. -/
def pdfQueryLink : Node := anchorTo "https://example.com/report.pdf?v=1" "example.com" ""

/-- A link to a page whose query string ends in `.pdf`. -/
def queryPdfLink : Node := anchorTo "https://example.com/view?file=report.pdf" "example.com" ""

/-- A link to an HTML page on the visited site. -/
def htmlLink : Node := anchorTo "https://example.com/docs/page.html" "example.com" ""

/-- A link to another site. -/
def otherSiteLink : Node := anchorTo "https://other.example.org/about" "other.example.org" ""

/-- A link to another site that opens in a new tab. -/
def newTabLink : Node := anchorTo "https://other.example.org/about" "other.example.org" "_blank"

/-! ## Automatic page views -/

/-- The page-view trigger (`w`, `v`). History build:
`n!==o.pathname&&(n=o.pathname,e("pageview"))`; hash builds: `c=o.pathname,e("pageview")`.
`last` is the recorded path (`none` while the variable is undefined), `w` the browser
when the trigger runs. The result is the recorded path afterwards and what the
dispatcher did, `none` when it was not called. -/
def pageviewTrigger (v : Variant) (rx : RegExpEngine) (cfg : Config) (last : Option String)
    (w : Browser) : Option String × Option DispatchResult :=
  if v.hash then (some w.pathname, some (dispatch v rx cfg w "pageview" none))
  else if last = some w.pathname then (last, none)
  else (some w.pathname, some (dispatch v rx cfg w "pageview" none))

/-- Truthiness of the recorded path: defined and not the empty string. -/
def recordedTruthy (last : Option String) : Bool :=
  match last with
  | some p => p != ""
  | none => false

/-- The `visibilitychange` listener: `function(){n||"visible"!==r.visibilityState||w()}`. -/
def visibilityListener (v : Variant) (rx : RegExpEngine) (cfg : Config) (last : Option String)
    (w : Browser) : Option String × Option DispatchResult :=
  if recordedTruthy last || w.visibilityState != "visible" then (last, none)
  else pageviewTrigger v rx cfg last w

/-- A notification after installation, with the browser as the handler finds it:
a call of `history.pushState` (the state after the push), `popstate`, `hashchange`,
`visibilitychange`. -/
inductive PageEvent where
  | pushState (w : Browser)
  | popstate (w : Browser)
  | hashchange (w : Browser)
  | visibilitychange (w : Browser)
  deriving DecidableEq, Repr

/-- Whether the event is a `visibilitychange`. -/
def PageEvent.isVisibility : PageEvent → Bool
  | .visibilitychange _ => true
  | _ => false

/-- What the installed tracker does on a notification, given the event types it listens
to. `history.pushState` is wrapped in the same statement that adds the `popstate`
listener, so a push reaches the trigger exactly when that listener was added. -/
def react (v : Variant) (rx : RegExpEngine) (cfg : Config) (listeners : List String)
    (last : Option String) : PageEvent → Option String × Option DispatchResult
  | .pushState w => if "popstate" ∈ listeners then pageviewTrigger v rx cfg last w else (last, none)
  | .popstate w => if "popstate" ∈ listeners then pageviewTrigger v rx cfg last w else (last, none)
  | .hashchange w =>
    if "hashchange" ∈ listeners then pageviewTrigger v rx cfg last w else (last, none)
  | .visibilitychange w =>
    if "visibilitychange" ∈ listeners then visibilityListener v rx cfg last w else (last, none)

/-- The notifications handled in order: for each one, what the dispatcher did (`none`
when it was not called). -/
def runEvents (v : Variant) (rx : RegExpEngine) (cfg : Config) (listeners : List String) :
    Option String → List PageEvent → List (PageEvent × Option DispatchResult)
  | _, [] => []
  | last, ev :: rest =>
    (ev, (react v rx cfg listeners last ev).2) ::
      runEvents v rx cfg listeners (react v rx cfg listeners last ev).1 rest

/-- The recorded path after the notifications were handled. -/
def recordedAfter (v : Variant) (rx : RegExpEngine) (cfg : Config) (listeners : List String) :
    Option String → List PageEvent → Option String
  | last, [] => last
  | last, ev :: rest =>
    recordedAfter v rx cfg listeners (react v rx cfg listeners last ev).1 rest

/-- How many page views the `visibilitychange` listener dispatched in a run. -/
def visibilityDispatches (log : List (PageEvent × Option DispatchResult)) : Nat :=
  (log.filter (fun x => x.1.isVisibility && x.2.isSome)).length

/-- The browser a notification carries. -/
def PageEvent.browser : PageEvent → Browser
  | .pushState w => w
  | .popstate w => w
  | .hashchange w => w
  | .visibilitychange w => w

/-- The sample browser on the path `/a`. -/
def browserAtA : Browser :=
  { sampleBrowser with pathname := "/a", href := "https://example.com/a" }

/-- The sample browser while the page is prerendered. -/
def prerenderBrowser : Browser := { sampleBrowser with visibilityState := "prerender" }

/-- Options of a manual call: a `meta` map and a URL override. -/
def sampleOptions : Options :=
  { meta := .object [("plan", "pro")], props := .undefined, callback := .undefined,
    u := .string "https://example.com/virtual" }

/-- A script element of the exclusions build without a `data-exclude` attribute. -/
def noExcludeScript : ScriptEl :=
  { src := "https://stats.example.com/js/plausible.exclusions.file-downloads.js",
    origin := some "https://stats.example.com", dataApi := none,
    dataDomain := some "example.com", dataExclude := none, fileTypes := none }

/-- The sample browser whose storage refuses access. -/
def blockedStorageBrowser : Browser := { sampleBrowser with storage := .throws }

/-- The sample browser with the opt-out flag set. -/
def optedOutBrowser : Browser := { sampleBrowser with storage := .value (some "true") }

/-- A prerendered page with the exclusions build and an empty queue. -/
def prerenderPage : Page :=
  { script := some adminExcludeScript, entry := .absent, browser := prerenderBrowser }

/-- A `mailto:` link to an address in the `.zip` top-level domain; such a link has no
host. -/
def mailLink : Node := anchorTo "mailto:bob@site.zip" "" ""

/-- A link to a PDF on another site. -/
def otherSitePdfLink : Node :=
  anchorTo "https://other.example.org/files/report.pdf" "other.example.org" ""

/-- A page of the manual build on which a page view was queued. -/
def manualPage : Page :=
  { script := some adminExcludeScript,
    entry := .stub [{ name := "pageview", options := none }],
    browser := sampleBrowser }

/-- What the reader produces for `[^\s/]`. -/
def notSpaceSlash : Re := .cls true [.space false, .chr '/']

/-- Options whose `meta` is the number `0` and whose `props` is the empty string. -/
def falsyOptions : Options :=
  { meta := .number false 0, props := .string "", callback := .undefined, u := .undefined }

/-! ## Properties of the dispatcher -/

theorem exclusionLoop_other (rx : RegExpEngine) (name path : String) (hn : name ≠ "pageview")
    (pats : List String) : exclusionLoop rx name path pats = .pass := by
  induction pats with
  | nil => rfl
  | cons pat rest ih => simp [exclusionLoop, hn, ih]

theorem exclusionLoop_match (rx : RegExpEngine) (path : String) (pats : List String)
    (h : ∃ pat ∈ pats, (rx (globSource pat.toList)).map (fun m => m path.toList) = some true) :
    exclusionLoop rx "pageview" path pats ≠ .pass := by
  induction pats with
  | nil => simp at h
  | cons pat rest ih =>
    obtain ⟨q, hq, hm⟩ := h
    simp only [exclusionLoop, if_true]
    cases hrx : rx (globSource pat.toList) with
    | none => simp
    | some m =>
      simp only
      by_cases hmp : m path.toList = true
      · rw [if_pos hmp]
        decide
      · simp only [hmp, Bool.false_eq_true, if_false]
        apply ih
        rcases List.mem_cons.mp hq with rfl | hq
        · rw [hrx] at hm
          simp at hm
          exact absurd hm hmp
        · exact ⟨q, hq, hm⟩

theorem dispatch_unsuppressed (v : Variant) (rx : RegExpEngine) (cfg : Config) (w : Browser)
    (name : String) (t : Option Options) (hw : w.unsuppressed v) :
    dispatch v rx cfg w name t =
      match (if v.exclusions then exclusionCheck rx cfg name w.pathname else .pass) with
      | .excluded => .warned "exclusion rule"
      | .threw => .threw
      | .pass => .sent { url := cfg.endpoint, body := buildPayload v cfg w name t, options := t } := by
  obtain ⟨h1, h2, h3⟩ := hw
  unfold dispatch
  rw [if_neg (by rw [h1]; decide), if_neg (by rw [h2]; decide), if_neg h3]

/-- C1. In a build with exclusions, on a path matched by the matcher compiled from at
least one pattern of the exclusion list, and with no loopback context, automation
marker or opt-out flag: `dispatch("pageview")` sends no request, and `dispatch(name)`
for every other name sends exactly one request. -/
theorem exclusion_applies_to_pageview_only (v : Variant) (rx : RegExpEngine) (cfg : Config)
    (w : Browser) (pats : List String) (t : Option Options)
    (hv : v.exclusions = true) (hcfg : cfg.exclude = some pats)
    (hmatch : ∃ pat ∈ pats,
      (rx (globSource pat.toList)).map (fun m => m w.pathname.toList) = some true)
    (hw : w.unsuppressed v) :
    requests [dispatch v rx cfg w "pageview" t] = [] ∧
    ∀ name : String, name ≠ "pageview" →
      requests [dispatch v rx cfg w name t] =
        [{ url := cfg.endpoint, body := buildPayload v cfg w name t, options := t }] := by
  constructor
  · rw [dispatch_unsuppressed v rx cfg w _ t hw]
    have h := exclusionLoop_match rx w.pathname pats hmatch
    simp only [hv, if_true, exclusionCheck, hcfg]
    cases hx : exclusionLoop rx "pageview" w.pathname pats with
    | pass => exact absurd hx h
    | excluded => rfl
    | threw => rfl
  · intro name hn
    rw [dispatch_unsuppressed v rx cfg w _ t hw]
    simp [hv, exclusionCheck, hcfg, exclusionLoop_other rx name w.pathname hn, requests]

theorem sampleBrowser_unsuppressed (v : Variant) : sampleBrowser.unsuppressed v := by
  refine ⟨?_, by decide, by decide⟩
  have h : (localhostRe.test sampleBrowser.hostname.toList || sampleBrowser.protocol == "file:")
      = false := by decide
  rw [h]
  simp

/-- Witness for C1: the exclusions build on `/blog/2024/post` with the list
`/admin`, `/blog/**`: a page view sends nothing, `Signup` sends one request. -/
theorem exclusion_applies_to_pageview_only_witness :
    requests [dispatch exclusionsFileDownloads jsRegExp sampleConfig sampleBrowser "pageview" none]
      = [] ∧
    requests [dispatch exclusionsFileDownloads jsRegExp sampleConfig sampleBrowser "Signup" none]
      = [{ url := sampleConfig.endpoint,
           body := buildPayload exclusionsFileDownloads sampleConfig sampleBrowser "Signup" none,
           options := none }] :=
  have h := exclusion_applies_to_pageview_only exclusionsFileDownloads jsRegExp sampleConfig
    sampleBrowser ["/admin", "/blog/**"] none rfl rfl
    ⟨"/blog/**", by simp, by rfl⟩ (sampleBrowser_unsuppressed _)
  ⟨h.1, h.2 "Signup" (by decide)⟩

/-! ## Properties of the matcher -/

theorem mem_ends_eps (n : Nat) (s x : List Char) : x ∈ Re.eps.ends n s ↔ x = s := by
  simp [Re.ends]

theorem mem_ends_chr (n : Nat) (c : Char) (s x : List Char) :
    x ∈ (Re.chr c).ends n s ↔ s = c :: x := by
  cases s with
  | nil => simp [Re.ends]
  | cons y t =>
    by_cases h : y = c
    · simp [Re.ends, h, eq_comm]
    · simp [Re.ends, h]

theorem mem_ends_dot (n : Nat) (s x : List Char) :
    x ∈ Re.dot.ends n s ↔ ∃ c, s = c :: x ∧ isLineTerminator c = false := by
  cases s with
  | nil => simp [Re.ends]
  | cons y t =>
    by_cases h : isLineTerminator y = true
    · simp [Re.ends, h]
    · simp only [Bool.not_eq_true] at h
      simp only [Re.ends, h, Bool.false_eq_true, if_false, List.mem_singleton, List.cons.injEq]
      constructor
      · rintro rfl
        exact ⟨y, ⟨rfl, rfl⟩, h⟩
      · rintro ⟨c, ⟨-, ht⟩, -⟩
        exact ht.symm

theorem mem_ends_cls (n : Nat) (neg : Bool) (items : List ClassItem) (s x : List Char) :
    x ∈ (Re.cls neg items).ends n s ↔ ∃ c, s = c :: x ∧ classAccepts neg items c = true := by
  cases s with
  | nil => simp [Re.ends]
  | cons y t =>
    by_cases h : classAccepts neg items y = true
    · simp only [Re.ends, h, if_true, List.mem_singleton, List.cons.injEq]
      constructor
      · rintro rfl
        exact ⟨y, ⟨rfl, rfl⟩, h⟩
      · rintro ⟨c, ⟨-, ht⟩, -⟩
        exact ht.symm
    · have h2 : classAccepts neg items y = false := by simpa using h
      simp only [Re.ends, h2, Bool.false_eq_true, if_false, List.not_mem_nil, List.cons.injEq,
        false_iff]
      rintro ⟨c, ⟨rfl, -⟩, hc⟩
      exact h hc

theorem mem_ends_bol (n : Nat) (s x : List Char) :
    x ∈ Re.bol.ends n s ↔ s.length = n ∧ x = s := by
  by_cases h : s.length = n
  · simp [Re.ends, h]
  · simp [Re.ends, h]

theorem mem_ends_eol (n : Nat) (s x : List Char) :
    x ∈ Re.eol.ends n s ↔ s = [] ∧ x = [] := by
  cases s with
  | nil => simp [Re.ends]
  | cons y t => simp [Re.ends]

theorem mem_ends_seq (n : Nat) (a b : Re) (s x : List Char) :
    x ∈ (Re.seq a b).ends n s ↔ ∃ t, t ∈ a.ends n s ∧ x ∈ b.ends n t := by
  simp [Re.ends, List.mem_flatMap]

theorem mem_ends_alt (n : Nat) (a b : Re) (s x : List Char) :
    x ∈ (Re.alt a b).ends n s ↔ x ∈ a.ends n s ∨ x ∈ b.ends n s := by
  simp [Re.ends]

theorem mem_ends_opt (n : Nat) (a : Re) (s x : List Char) :
    x ∈ (Re.opt a).ends n s ↔ x ∈ a.ends n s ∨ x = s := by
  simp [Re.opt, mem_ends_alt, mem_ends_eps]

/-- Iterating a step that consumes exactly one accepted character reaches exactly the
remainders left after a run of accepted characters. -/
theorem mem_starEnds_single (P : Char → Bool) (step : List Char → List (List Char))
    (hstep : ∀ s x, x ∈ step s ↔ ∃ c, s = c :: x ∧ P c = true) (x : List Char) :
    ∀ (fuel : Nat) (s : List Char), s.length ≤ fuel →
      (x ∈ starEnds step fuel s ↔ ∃ run, s = run ++ x ∧ ∀ c ∈ run, P c = true) := by
  intro fuel
  induction fuel with
  | zero =>
    intro s hs
    have hs0 : s = [] := List.length_eq_zero.mp (Nat.le_zero.mp hs)
    subst hs0
    simp only [starEnds, List.mem_singleton]
    constructor
    · intro h
      exact ⟨[], by simp [h], by simp⟩
    · rintro ⟨run, h, -⟩
      have := congrArg List.length h
      simp at this
      exact List.length_eq_zero.mp (by omega)
  | succ fuel ih =>
    intro s hs
    simp only [starEnds, List.mem_cons, List.mem_flatMap, List.mem_filter, decide_eq_true_eq]
    constructor
    · rintro (h | ⟨t, ⟨ht, -⟩, hx⟩)
      · exact ⟨[], by simp [h], by simp⟩
      · obtain ⟨c, hc, hP⟩ := (hstep s t).mp ht
        have hlen : t.length ≤ fuel := by
          subst hc
          simp at hs
          omega
        obtain ⟨run, hrun, hall⟩ := (ih t hlen).mp hx
        refine ⟨c :: run, by simp [hc, hrun], ?_⟩
        intro d hd
        rcases List.mem_cons.mp hd with rfl | hd
        · exact hP
        · exact hall d hd
    · rintro ⟨run, hrun, hall⟩
      cases run with
      | nil => left; simpa using hrun.symm
      | cons c run =>
        right
        have hs2 : s = c :: (run ++ x) := by simpa using hrun
        have hlen : (run ++ x).length ≤ fuel := by
          subst hs2
          simp at hs ⊢
          omega
        refine ⟨run ++ x, ⟨(hstep s _).mpr ⟨c, hs2, hall c (by simp)⟩, ?_⟩, ?_⟩
        · subst hs2
          simp
        · exact (ih _ hlen).mpr ⟨run, rfl, fun d hd => hall d (by simp [hd])⟩

theorem mem_ends_star_dot (n : Nat) (s x : List Char) :
    x ∈ (Re.star .dot).ends n s ↔ ∃ run, s = run ++ x ∧ ∀ c ∈ run, isLineTerminator c = false := by
  have h := mem_starEnds_single (fun c => !isLineTerminator c) (fun t => Re.dot.ends n t)
    (by intro s x; simp [mem_ends_dot]) x s.length s (Nat.le_refl _)
  simpa [Re.ends] using h

theorem mem_ends_star_cls (n : Nat) (neg : Bool) (items : List ClassItem) (s x : List Char) :
    x ∈ (Re.star (.cls neg items)).ends n s ↔
      ∃ run, s = run ++ x ∧ ∀ c ∈ run, classAccepts neg items c = true := by
  have h := mem_starEnds_single (fun c => classAccepts neg items c)
    (fun t => (Re.cls neg items).ends n t) (by intro s x; simp [mem_ends_cls]) x s.length s
    (Nat.le_refl _)
  simpa [Re.ends] using h

theorem mem_ends_litThen (n : Nat) (cs : List Char) (r : Re) (s x : List Char) :
    x ∈ (litThen cs r).ends n s ↔ ∃ t, s = cs ++ t ∧ x ∈ r.ends n t := by
  induction cs generalizing s with
  | nil => simp [litThen]
  | cons c cs ih =>
    have hl : litThen (c :: cs) r = Re.seq (.chr c) (litThen cs r) := rfl
    rw [hl, mem_ends_seq]
    constructor
    · rintro ⟨t, ht, hx⟩
      rw [mem_ends_chr] at ht
      obtain ⟨u, hu, hxu⟩ := (ih t).mp hx
      exact ⟨u, by simp [ht, hu], hxu⟩
    · rintro ⟨t, ht, hx⟩
      exact ⟨cs ++ t, by rw [mem_ends_chr]; simpa using ht, (ih _).mpr ⟨t, rfl, hx⟩⟩

/-- An expression that starts with `^` can only match at index 0. -/
theorem test_anchored (r : Re) (p : List Char) :
    (Re.seq .bol r).test p = true ↔ ∃ x, x ∈ r.ends p.length p := by
  simp only [Re.test, List.any_eq_true, List.mem_range, Bool.not_eq_true', List.isEmpty_eq_false]
  constructor
  · rintro ⟨i, hi, hne⟩
    obtain ⟨x, hx⟩ := List.exists_mem_of_ne_nil _ hne
    rw [mem_ends_seq] at hx
    obtain ⟨t, ht, hxt⟩ := hx
    rw [mem_ends_bol] at ht
    have hi0 : i = 0 := by
      have := ht.1
      simp at this
      omega
    subst hi0
    rw [ht.2] at hxt
    exact ⟨x, by simpa using hxt⟩
  · rintro ⟨x, hx⟩
    refine ⟨0, by omega, ?_⟩
    apply List.ne_nil_of_mem (a := x)
    rw [mem_ends_seq]
    exact ⟨p, by simp [mem_ends_bol], hx⟩

/-! ## The compiled glob matcher -/

theorem parse_blog_all :
    parseRegExp (globSource "/blog/**".toList) =
      .ok (.seq .bol (litThen "/blog/".toList
        (.seq (.star .dot) globTail))) := by
  rfl

theorem parse_blog_one :
    parseRegExp (globSource "/blog/*".toList) =
      .ok (.seq .bol (litThen "/blog/".toList
        (.seq (.star (.cls true [.space false, .chr '/'])) globTail))) := by
  rfl

/-- The tail `/?$` of every compiled glob: an optional `/`, then the end of the input. -/
theorem mem_ends_tail (n : Nat) (s x : List Char) :
    x ∈ globTail.ends n s ↔ (s = [] ∨ s = ['/']) ∧ x = [] := by
  simp only [globTail, mem_ends_seq, mem_ends_opt, mem_ends_chr, mem_ends_eol, mem_ends_eps]
  constructor
  · rintro ⟨t, ht, u, ⟨hu, rfl⟩, hx⟩
    subst hu
    rcases ht with h | h
    · exact ⟨Or.inr h, hx⟩
    · exact ⟨Or.inl h.symm, hx⟩
  · rintro ⟨h | h, rfl⟩
    · exact ⟨[], Or.inr h.symm, [], ⟨rfl, rfl⟩, rfl⟩
    · exact ⟨[], Or.inl h, [], ⟨rfl, rfl⟩, rfl⟩

theorem classAccepts_not_space_slash (c : Char) :
    classAccepts true [.space false, .chr '/'] c = true ↔ isWhiteSpace c = false ∧ c ≠ '/' := by
  simp [classAccepts, ClassItem.accepts]

/-- C2. For every path `p` (a `location.pathname`, hence free of line terminators):
the matcher compiled from `/blog/**` accepts `p` exactly when `p` starts with `/blog/`;
the matcher compiled from `/blog/*` accepts `p` exactly when `p` is `/blog/`, then a
possibly empty run of characters that are neither white space nor `/`, then at most
one `/`. Both are anchored at both ends; `/blog/**` accepts `/blog/2024/post` and
`/blog/`, `/blog/*` accepts `/blog/post` and rejects `/blog/post/extra`. -/
theorem glob_blog_matchers (p : String) (hp : ∀ c ∈ p.toList, isLineTerminator c = false) :
    (∃ b, globMatches "/blog/**" p = some b ∧
      (b = true ↔ ∃ rest, p.toList = "/blog/".toList ++ rest)) ∧
    (∃ b, globMatches "/blog/*" p = some b ∧
      (b = true ↔ ∃ run, (∀ c ∈ run, isWhiteSpace c = false ∧ c ≠ '/') ∧
        (p.toList = "/blog/".toList ++ run ∨ p.toList = "/blog/".toList ++ run ++ ['/']))) ∧
    globMatches "/blog/**" "/blog/2024/post" = some true ∧
    globMatches "/blog/**" "/blog/" = some true ∧
    globMatches "/blog/*" "/blog/post" = some true ∧
    globMatches "/blog/*" "/blog/post/extra" = some false := by
  refine ⟨?_, ?_, by rfl, by rfl, by rfl, by rfl⟩
  · refine ⟨_, by simp only [globMatches, jsRegExp, parse_blog_all, Option.map_some']; rfl, ?_⟩
    rw [test_anchored]
    simp only [mem_ends_litThen, mem_ends_seq, mem_ends_star_dot, mem_ends_tail]
    constructor
    · rintro ⟨x, t, ht, -⟩
      exact ⟨t, ht⟩
    · rintro ⟨rest, hrest⟩
      refine ⟨[], rest, hrest, [], ⟨rest, by simp, ?_⟩, Or.inl rfl, rfl⟩
      intro c hc
      exact hp c (by rw [hrest]; simp [hc])
  · refine ⟨_, by simp only [globMatches, jsRegExp, parse_blog_one, Option.map_some']; rfl, ?_⟩
    rw [test_anchored]
    simp only [mem_ends_litThen, mem_ends_seq, mem_ends_star_cls, mem_ends_tail,
      classAccepts_not_space_slash]
    constructor
    · rintro ⟨x, t, ht, u, ⟨run, hrun, hall⟩, hu | hu, -⟩
      · exact ⟨run, hall, Or.inl (by rw [ht, hrun, hu]; simp)⟩
      · exact ⟨run, hall, Or.inr (by rw [ht, hrun, hu]; simp)⟩
    · rintro ⟨run, hall, h | h⟩
      · exact ⟨[], run, h, [], ⟨run, by simp, hall⟩, Or.inl rfl, rfl⟩
      · exact ⟨[], run ++ ['/'], by rw [h]; simp, ['/'], ⟨run, rfl, hall⟩, Or.inr rfl, rfl⟩

/-- Witness for C2 at the path `/blog/2024/post`. -/
theorem glob_blog_matchers_witness :
    (∀ c ∈ "/blog/2024/post".toList, isLineTerminator c = false) ∧
    (∃ b, globMatches "/blog/**" "/blog/2024/post" = some b ∧
      (b = true ↔ ∃ rest, "/blog/2024/post".toList = "/blog/".toList ++ rest)) :=
  ⟨by decide, (glob_blog_matchers "/blog/2024/post" (by decide)).1⟩

/-! ## Patterns without `*` -/

theorem dropWhile_none (P : Char → Bool) (s : List Char) (h : ∀ c ∈ s, P c = false) :
    s.dropWhile P = s := by
  cases s with
  | nil => rfl
  | cons c t => simp [List.dropWhile, h c (by simp)]

theorem trim_eq_self (s : List Char) (h : ∀ c ∈ s, isWhiteSpace c = false) : trim s = s := by
  unfold trim
  rw [dropWhile_none _ s h, dropWhile_none _ s.reverse (by simpa using h), List.reverse_reverse]

theorem replaceStarStar_eq_self (s : List Char) (h : ∀ c ∈ s, c ≠ '*') :
    replaceStarStar s = s := by
  induction s using replaceStarStar.induct with
  | case1 => rfl
  | case2 c => rfl
  | case3 c d t hc ih =>
    exact absurd hc.1 (h c (by simp))
  | case4 c d t hc ih =>
    rw [replaceStarStar, if_neg hc, ih (fun x hx => h x (by simp [hx]))]

theorem replaceStar_eq_self (s : List Char) (h : ∀ c ∈ s, c ≠ '*') : replaceStar s = s := by
  induction s using replaceStar.induct with
  | case1 => rfl
  | case2 c => rfl
  | case3 c d t hc ih =>
    exact absurd hc.2 (h d (by simp))
  | case4 c d t hc ih =>
    rw [replaceStar, if_neg hc, ih (fun x hx => h x (by simp [hx]))]

theorem isOrdinary_or_dot_ne_star (c : Char) (h : isOrdinary c = true ∨ c = '.') : c ≠ '*' := by
  rcases h with h | h
  · intro hc
    subst hc
    simp [isOrdinary] at h
  · subst h
    decide

theorem isOrdinary_or_dot_not_space (c : Char) (h : isOrdinary c = true ∨ c = '.') :
    isWhiteSpace c = false := by
  rcases h with h | h
  · simp only [isOrdinary, Bool.and_eq_true, Bool.not_eq_true'] at h
    exact h.1.1.1.1.1.1.1.1.1.1.1.1.1.1
  · subst h
    decide

theorem globSource_plain (pat : List Char) (h : ∀ c ∈ pat, isOrdinary c = true ∨ c = '.') :
    globSource pat = '^' :: (pat ++ ['/', '?', '$']) := by
  unfold globSource
  rw [trim_eq_self pat (fun c hc => isOrdinary_or_dot_not_space c (h c hc)),
    replaceStarStar_eq_self pat (fun c hc => isOrdinary_or_dot_ne_star c (h c hc)),
    replaceStar_eq_self pat (fun c hc => isOrdinary_or_dot_ne_star c (h c hc))]

/-- In normal mode the reader turns an ordinary character or a `.` into one atom. -/
theorem step_plain (st : PState) (c : Char) (hm : st.mode = .normal)
    (h : isOrdinary c = true ∨ c = '.') : st.step c = .ok (st.atom (atomOf c)) := by
  unfold PState.step
  rw [hm]
  simp only
  rcases h with h | h
  · simp only [isOrdinary, Bool.and_eq_true, Bool.not_eq_true', bne_iff_ne, ne_eq] at h
    obtain ⟨⟨⟨⟨⟨⟨⟨⟨⟨⟨⟨⟨⟨⟨-, h1⟩, h2⟩, h3⟩, h4⟩, h5⟩, h6⟩, h7⟩, h8⟩, h9⟩, h10⟩, h11⟩, h12⟩, h13⟩, h14⟩ := h
    simp [PState.stepNormal, atomOf, h1, h2, h3, h4, h5, h6, h7, h8, h9, h10, h11, h12, h13, h14]
  · subst h
    simp [PState.stepNormal, atomOf]

theorem foldlM_plain (cs : List Char) (h : ∀ c ∈ cs, isOrdinary c = true ∨ c = '.') :
    ∀ st : PState, st.mode = .normal →
      ∃ l, cs.foldlM PState.step st =
        .ok { stack := st.stack,
              cur := { alts := st.cur.alts, terms := (cs.map atomOf).reverse ++ st.cur.terms },
              last := l, mode := .normal } := by
  induction cs with
  | nil =>
    intro st hm
    refine ⟨st.last, ?_⟩
    cases st with
    | mk stack cur last mode =>
      simp only at hm
      subst hm
      rfl
  | cons c cs ih =>
    intro st hm
    obtain ⟨l, hl⟩ := ih (fun x hx => h x (by simp [hx])) (st.atom (atomOf c)) rfl
    refine ⟨l, ?_⟩
    rw [List.foldlM_cons, step_plain st c hm (h c (by simp))]
    simp only [Except.bind, bind] at hl ⊢
    rw [hl]
    simp [PState.atom]

theorem mkSeq_reverse (ts : List Re) : mkSeq ts.reverse = ts.foldr Re.seq .eps := by
  unfold mkSeq
  rw [List.foldl_reverse]

theorem atomsThen_eq (cs : List Char) (r : Re) :
    atomsThen cs r = (cs.map atomOf).foldr Re.seq r := by
  unfold atomsThen
  rw [List.foldr_map]

/-- What `new RegExp` reads from the source compiled for a pattern of ordinary
characters and `.`: `^`, one atom per character, then `/?$`. -/
theorem parse_plain (pat : List Char) (h : ∀ c ∈ pat, isOrdinary c = true ∨ c = '.') :
    parseRegExp (globSource pat) = .ok (.seq .bol (atomsThen pat globTail)) := by
  rw [globSource_plain pat h]
  unfold parseRegExp
  rw [List.foldlM_cons]
  have h0 : PState.step PState.init '^' = .ok (PState.init.assertion .bol) := by rfl
  rw [h0]
  simp only [bind, Except.bind]
  rw [List.foldlM_append]
  obtain ⟨l, hl⟩ := foldlM_plain pat h (PState.init.assertion .bol) rfl
  simp only [bind, Except.bind]
  rw [hl]
  simp only [List.foldlM_cons, List.foldlM_nil, bind, Except.bind, pure, Except.pure]
  have hterms : (Re.eol :: Re.opt (.chr '/') :: ((pat.map atomOf).reverse ++ [Re.bol])) =
      ([Re.bol] ++ pat.map atomOf ++ [Re.opt (.chr '/'), Re.eol]).reverse := by simp
  simp [PState.step, PState.stepNormal, PState.atom, PState.quantify, PState.assertion,
    PState.init, PState.finish, Frame.close]
  rw [hterms, mkSeq_reverse, atomsThen_eq]
  simp [globTail]

theorem mem_ends_atomOf (n : Nat) (c : Char) (s x : List Char) :
    x ∈ (atomOf c).ends n s ↔ ∃ y, s = y :: x ∧ charAgrees c y := by
  unfold atomOf charAgrees
  by_cases hc : c = '.'
  · simp only [hc, if_true, mem_ends_dot]
  · simp only [hc, if_false, mem_ends_chr]
    constructor
    · rintro rfl
      exact ⟨c, rfl, rfl⟩
    · rintro ⟨y, rfl, rfl⟩
      rfl

theorem mem_ends_atomsThen (n : Nat) (cs : List Char) (r : Re) (s x : List Char) :
    x ∈ (atomsThen cs r).ends n s ↔
      ∃ q t, s = q ++ t ∧ List.Forall₂ charAgrees cs q ∧ x ∈ r.ends n t := by
  induction cs generalizing s with
  | nil =>
    simp only [atomsThen, List.foldr_nil, List.forall₂_nil_left_iff]
    constructor
    · intro h
      exact ⟨[], s, rfl, rfl, h⟩
    · rintro ⟨q, t, hs, rfl, hx⟩
      simpa [hs] using hx
  | cons c cs ih =>
    have hl : atomsThen (c :: cs) r = Re.seq (atomOf c) (atomsThen cs r) := rfl
    rw [hl, mem_ends_seq]
    constructor
    · rintro ⟨t, ht, hx⟩
      obtain ⟨y, hy, hagree⟩ := (mem_ends_atomOf n c s t).mp ht
      obtain ⟨q, u, hq, hall, hxu⟩ := (ih t).mp hx
      exact ⟨y :: q, u, by simp [hy, hq], List.Forall₂.cons hagree hall, hxu⟩
    · rintro ⟨q, t, hs, hall, hx⟩
      cases hall with
      | cons hagree hrest =>
        rename_i y q
        exact ⟨q ++ t, (mem_ends_atomOf n c s _).mpr ⟨y, by simpa using hs, hagree⟩,
          (ih _).mpr ⟨q, t, rfl, hrest, hx⟩⟩

/-- C3, as stated, fails: the pattern `/index.html` consists of ordinary characters and
`.`, contains no `*`, and its matcher accepts `/indexXhtml`, which is neither the
pattern nor the pattern followed by `/`. -/
theorem glob_dot_matches_other_character :
    (∀ c ∈ "/index.html".toList, isOrdinary c = true ∨ c = '.') ∧
    globMatches "/index.html" "/indexXhtml" = some true ∧
    "/indexXhtml" ≠ "/index.html" ∧ "/indexXhtml" ≠ "/index.html/" := by
  refine ⟨by decide, by rfl, by decide, by decide⟩

/-- C3, amended. For every pattern without `*` made of ordinary path characters and
`.`, the compiled matcher accepts a path exactly when the path, or the path without one
trailing `/`, has the length of the pattern, carries the pattern character at every
position where the pattern character is not `.`, and carries a character other than a
line terminator at every position where the pattern has `.`. -/
theorem glob_plain_matcher (pat p : String)
    (hpat : ∀ c ∈ pat.toList, isOrdinary c = true ∨ c = '.') :
    ∃ b, globMatches pat p = some b ∧
      (b = true ↔ ∃ q, List.Forall₂ charAgrees pat.toList q ∧
        (p.toList = q ∨ p.toList = q ++ ['/'])) := by
  refine ⟨_, by simp only [globMatches, jsRegExp, parse_plain pat.toList hpat,
    Option.map_some']; rfl, ?_⟩
  rw [test_anchored]
  simp only [mem_ends_atomsThen, mem_ends_tail]
  constructor
  · rintro ⟨x, q, t, hp, hall, ht | ht, -⟩
    · exact ⟨q, hall, Or.inl (by rw [hp, ht]; simp)⟩
    · exact ⟨q, hall, Or.inr (by rw [hp, ht])⟩
  · rintro ⟨q, hall, h | h⟩
    · exact ⟨[], q, [], by rw [h, List.append_nil], hall, Or.inl rfl, rfl⟩
    · exact ⟨[], q, ['/'], h, hall, Or.inr rfl, rfl⟩

/-- Witness for C3 (amended) at the pattern `/index.html` and the path `/indexXhtml`. -/
theorem glob_plain_matcher_witness :
    (∀ c ∈ "/index.html".toList, isOrdinary c = true ∨ c = '.') ∧
    ∃ b, globMatches "/index.html" "/indexXhtml" = some b ∧
      (b = true ↔ ∃ q, List.Forall₂ charAgrees "/index.html".toList q ∧
        ("/indexXhtml".toList = q ∨ "/indexXhtml".toList = q ++ ['/'])) :=
  ⟨by decide, glob_plain_matcher "/index.html" "/indexXhtml" (by decide)⟩

/-! ## Empty `data-exclude` -/

/-- C4, evaluated on the exclusions build with `data-exclude=""` on the root path `/`:
the exclusion list is the one-element list holding the empty pattern, whose matcher
accepts `/`, so `dispatch("pageview")` warns "exclusion rule" and sends no request. -/
theorem empty_exclude_suppresses_root :
    (readConfig exclusionsFileDownloads (some emptyExcludeScript)).map (fun cfg => cfg.exclude)
      = some (some [""]) ∧
    globMatches "" "/" = some true ∧
    (readConfig exclusionsFileDownloads (some emptyExcludeScript)).map
      (fun cfg => dispatch exclusionsFileDownloads jsRegExp cfg rootBrowser "pageview" none)
      = some (.warned "exclusion rule") := by
  refine ⟨by rfl, by rfl, by rfl⟩

/-! ## Suppression -/

theorem dispatch_suppressed (v : Variant) (rx : RegExpEngine) (cfg : Config) (w : Browser)
    (name : String) (t : Option Options) (h : w.suppressed v) :
    dispatch v rx cfg w name t = .ignored ∨ ∃ reason, dispatch v rx cfg w name t = .warned reason := by
  unfold dispatch
  by_cases h1 : (v.localhostCheck &&
      (localhostRe.test w.hostname.toList || w.protocol == "file:")) = true
  · rw [if_pos h1]
    exact Or.inr ⟨_, rfl⟩
  · rw [if_neg h1]
    by_cases h2 : (w.phantom || w.nightmare || w.webdriver || w.cypress) = true
    · rw [if_pos h2]
      exact Or.inl rfl
    · rw [if_neg h2]
      by_cases h3 : w.storage = .value (some "true")
      · rw [if_pos h3]
        exact Or.inr ⟨_, rfl⟩
      · rcases h with h | h | ⟨ha, hb⟩
        · exact absurd h h2
        · exact absurd h h3
        · rw [ha, hb] at h1
          exact absurd rfl h1

theorem runCalls_suppressed (f : Call → DispatchResult)
    (hf : ∀ c, f c = .ignored ∨ ∃ reason, f c = .warned reason) (calls : List Call) :
    (runCalls f calls).length = calls.length ∧ requests (runCalls f calls) = [] ∧
      ∀ r ∈ runCalls f calls, r = .ignored ∨ ∃ reason, r = .warned reason := by
  induction calls with
  | nil => simp [runCalls, requests]
  | cons c rest ih =>
    obtain ⟨ih1, ih2, ih3⟩ := ih
    rcases hf c with h | ⟨reason, h⟩
    · simp only [runCalls, h, List.length_cons, ih1, requests, ih2, List.mem_cons, true_and]
      rintro r (rfl | hr)
      · exact Or.inl rfl
      · exact ih3 r hr
    · simp only [runCalls, h, List.length_cons, ih1, requests, ih2, List.mem_cons, true_and]
      rintro r (rfl | hr)
      · exact Or.inr ⟨reason, rfl⟩
      · exact ih3 r hr

/-- C5. While the dispatcher is suppressed (automation marker, opt-out flag `"true"`,
or loopback host / `file:` protocol in the builds with that check), any sequence of
calls, with any names and options, returns normally each time, sends no request, and
`options.callback` is never run, whatever ready-state notifications arrive. -/
theorem suppressed_calls_send_nothing (v : Variant) (rx : RegExpEngine) (cfg : Config)
    (w : Browser) (calls : List Call) (events : List (Nat × Nat)) (h : w.suppressed v) :
    (runCalls (fun c => dispatch v rx cfg w c.name c.options) calls).length = calls.length ∧
    (∀ r ∈ runCalls (fun c => dispatch v rx cfg w c.name c.options) calls,
      r = .ignored ∨ ∃ reason, r = .warned reason) ∧
    requests (runCalls (fun c => dispatch v rx cfg w c.name c.options) calls) = [] ∧
    callbackRuns (requests (runCalls (fun c => dispatch v rx cfg w c.name c.options) calls))
      events = 0 := by
  obtain ⟨h1, h2, h3⟩ := runCalls_suppressed (fun c => dispatch v rx cfg w c.name c.options)
    (fun c => dispatch_suppressed v rx cfg w c.name c.options h) calls
  refine ⟨h1, h3, h2, ?_⟩
  rw [h2]
  simp [callbackRuns]

/-- Witness for C5: under WebDriver, three calls (one with a callback) and a
ready-state 4 notification. -/
theorem suppressed_calls_send_nothing_witness :
    webdriverBrowser.suppressed fileDownloadsHash ∧
    requests (runCalls
      (fun c => dispatch fileDownloadsHash jsRegExp sampleConfig webdriverBrowser c.name c.options)
      [{ name := "pageview", options := none }, { name := "pageview", options := none },
       { name := "Signup", options := some callbackOptions }]) = [] ∧
    callbackRuns (requests (runCalls
      (fun c => dispatch fileDownloadsHash jsRegExp sampleConfig webdriverBrowser c.name c.options)
      [{ name := "pageview", options := none }, { name := "pageview", options := none },
       { name := "Signup", options := some callbackOptions }])) [(2, 4)] = 0 :=
  have h := suppressed_calls_send_nothing fileDownloadsHash jsRegExp sampleConfig webdriverBrowser
    [{ name := "pageview", options := none }, { name := "pageview", options := none },
     { name := "Signup", options := some callbackOptions }] [(2, 4)] (Or.inl (by decide))
  ⟨Or.inl (by decide), h.2.2.1, h.2.2.2⟩

/-! ## Queue replay -/

theorem runCalls_sent (f : Call → DispatchResult) (q : List Call)
    (h : ∀ c ∈ q, ∃ req, f c = .sent req) : runCalls f q = q.map f := by
  induction q with
  | nil => rfl
  | cons c rest ih =>
    obtain ⟨req, hreq⟩ := h c (by simp)
    simp [runCalls, hreq, ih (fun d hd => h d (by simp [hd]))]

theorem requests_map_sent (g : Call → Request) (q : List Call) :
    requests (q.map (fun c => DispatchResult.sent (g c))) = q.map g := by
  induction q with
  | nil => rfl
  | cons c rest ih => simp [requests, ih]

theorem getLast_map_sent (g : Call → Request) (q : List Call) :
    (q.map (fun c => DispatchResult.sent (g c))).getLast? ≠ some .threw := by
  intro h
  have hmem := List.mem_of_getLast?_eq_some h
  simp at hmem

/-- C6. With a readable configuration, no suppression, and no queued page view stopped
by the exclusion check: the tracker script replaces the entry point by the dispatcher
and replays the queue once, sending exactly one request per queued tuple, in queue
order, named as queued; after the replay follows at most the initial page view of the
builds with automatic page views, and nothing in the manual build. -/
theorem queue_replay_in_order (v : Variant) (rx : RegExpEngine) (page : Page) (cfg : Config)
    (q : List Call)
    (hcfg : readConfig v page.script = some cfg)
    (hq : page.entry = .stub q)
    (hw : page.browser.unsuppressed v)
    (hex : (∃ c ∈ q, c.name = "pageview") → v.exclusions = true →
      exclusionCheck rx cfg "pageview" page.browser.pathname = .pass) :
    (install v rx page).entry = .dispatcher ∧
    (install v rx page).results =
      q.map (fun c => .sent { url := cfg.endpoint,
                              body := buildPayload v cfg page.browser c.name c.options,
                              options := c.options }) ++
        (if v.manual = true ∨ page.browser.visibilityState = "prerender" then []
         else [dispatch v rx cfg page.browser "pageview" none]) ∧
    (requests ((install v rx page).results.take q.length)).map (fun r => r.body.n)
      = q.map (fun c => c.name) := by
  have hsent : ∀ c ∈ q, dispatch v rx cfg page.browser c.name c.options =
      .sent { url := cfg.endpoint, body := buildPayload v cfg page.browser c.name c.options,
              options := c.options } := by
    intro c hc
    rw [dispatch_unsuppressed v rx cfg page.browser _ _ hw]
    by_cases hv : v.exclusions = true
    · by_cases hn : c.name = "pageview"
      · simp only [hv, if_true, hn, hex ⟨c, hc, hn⟩ hv]
      · simp only [hv, if_true, exclusionCheck]
        cases hx : cfg.exclude with
        | none => rfl
        | some s => simp only [exclusionLoop_other rx c.name _ hn s]
    · simp only [hv, Bool.false_eq_true, if_false]
  have hrun : runCalls (fun c => dispatch v rx cfg page.browser c.name c.options) q =
      q.map (fun c => .sent { url := cfg.endpoint,
                              body := buildPayload v cfg page.browser c.name c.options,
                              options := c.options }) := by
    rw [runCalls_sent _ q (fun c hc => ⟨_, hsent c hc⟩)]
    exact List.map_congr_left hsent
  have hlast := getLast_map_sent
    (fun c => (⟨cfg.endpoint, buildPayload v cfg page.browser c.name c.options, c.options⟩ :
      Request)) q
  have hinst : (install v rx page).entry = .dispatcher ∧ (install v rx page).results =
      q.map (fun c => .sent { url := cfg.endpoint,
                              body := buildPayload v cfg page.browser c.name c.options,
                              options := c.options }) ++
        (if v.manual = true ∨ page.browser.visibilityState = "prerender" then []
         else [dispatch v rx cfg page.browser "pageview" none]) := by
    unfold install
    simp only [hcfg, hq, EntryPoint.queue, hrun, if_neg hlast]
    by_cases hm : v.manual = true
    · simp [hm]
    · by_cases hp : page.browser.visibilityState = "prerender"
      · simp [hm, hp]
      · simp [hm, hp]
  refine ⟨hinst.1, hinst.2, ?_⟩
  rw [hinst.2, List.take_left' (by simp), requests_map_sent, List.map_map]
  rfl

/-- Witness for C6: `plausible("a")`, `plausible("b")` queued before the exclusions
build runs yield the requests named `a`, `b`, in that order. -/
theorem queue_replay_in_order_witness :
    (install exclusionsFileDownloads jsRegExp queuedPage).entry = .dispatcher ∧
    (requests ((install exclusionsFileDownloads jsRegExp queuedPage).results.take 2)).map
      (fun r => r.body.n) = ["a", "b"] :=
  have h := queue_replay_in_order exclusionsFileDownloads jsRegExp queuedPage openConfig
    [{ name := "a", options := none }, { name := "b", options := none }]
    (by rfl) (by rfl) (sampleBrowser_unsuppressed _) (fun _ _ => by rfl)
  ⟨h.1, h.2.2⟩

/-! ## Click handlers -/

theorem splitOn_getLast_aux (sep : Char) (s : List Char) :
    ∃ x, (splitOn sep s).getLast? = some x ∧ sep ∉ x ∧
      ((s = x ∧ splitOn sep s = [x]) ∨
        ((∃ pre, s = pre ++ sep :: x) ∧ 2 ≤ (splitOn sep s).length)) := by
  induction s with
  | nil => exact ⟨[], rfl, by simp, Or.inl ⟨rfl, rfl⟩⟩
  | cons c t ih =>
    obtain ⟨x, hx, hsep, hs⟩ := ih
    by_cases hc : c = sep
    · have hsplit : splitOn sep (c :: t) = [] :: splitOn sep t := by simp [splitOn, hc]
      have hne : 1 ≤ (splitOn sep t).length := by
        rcases hs with ⟨-, h⟩ | ⟨-, h⟩
        · rw [h]; simp
        · omega
      refine ⟨x, ?_, hsep, Or.inr ⟨?_, ?_⟩⟩
      · rw [hsplit]
        cases hsp : splitOn sep t with
        | nil => rw [hsp] at hne; simp at hne
        | cons p ps => rw [hsp] at hx; rw [List.getLast?_cons_cons]; exact hx
      · rcases hs with ⟨h, -⟩ | ⟨⟨pre, h⟩, -⟩
        · exact ⟨[], by simp [hc, h]⟩
        · exact ⟨c :: pre, by simp [h]⟩
      · rw [hsplit]
        simp only [List.length_cons]
        omega
    · rcases hs with ⟨h, hsp⟩ | ⟨⟨pre, h⟩, hlen⟩
      · have hsplit : splitOn sep (c :: t) = [c :: x] := by simp [splitOn, hc, hsp]
        refine ⟨c :: x, by rw [hsplit]; rfl, ?_, Or.inl ⟨by rw [h], hsplit⟩⟩
        simp only [List.mem_cons, not_or]
        exact ⟨fun h => hc h.symm, hsep⟩
      · cases hsp : splitOn sep t with
        | nil => rw [hsp] at hlen; simp at hlen
        | cons p ps =>
          cases ps with
          | nil => rw [hsp] at hlen; simp at hlen
          | cons p2 ps2 =>
            have hsplit : splitOn sep (c :: t) = (c :: p) :: p2 :: ps2 := by
              simp [splitOn, hc, hsp]
            rw [hsp, List.getLast?_cons_cons] at hx
            refine ⟨x, ?_, hsep, Or.inr ⟨⟨c :: pre, by simp [h]⟩, ?_⟩⟩
            · rw [hsplit, List.getLast?_cons_cons]
              exact hx
            · rw [hsplit]
              simp

/-- `href.split(".").pop()` is the text after the final `.` of `href`, or all of `href`
when it holds no `.`. -/
theorem extension_after_final_dot (href : String) :
    '.' ∉ (extension href).toList ∧
    (href.toList = (extension href).toList ∨
      ∃ pre, href.toList = pre ++ '.' :: (extension href).toList) := by
  obtain ⟨x, hx, hsep, hs⟩ := splitOn_getLast_aux '.' href.toList
  have he : (extension href).toList = x := by
    unfold extension
    rw [hx]
    rfl
  rw [he]
  refine ⟨hsep, ?_⟩
  rcases hs with ⟨h, -⟩ | ⟨h, -⟩
  · exact Or.inl h
  · exact Or.inr h

theorem mem_trackAndDefer_track (name : String) (e : MouseEvent) (a : Node) (n : String)
    (o : Options) :
    Action.track n o ∈ trackAndDefer name e a ↔
      ((e.type = "auxclick" ∧ e.which = 2) ∨ e.type = "click") ∧ n = name ∧
        o = urlProps a.href := by
  unfold trackAndDefer
  simp only [List.mem_append]
  constructor
  · rintro (h | h)
    · split at h
      · rename_i hc
        simp only [List.mem_singleton, Action.track.injEq] at h
        simp only [Bool.or_eq_true, Bool.and_eq_true, beq_iff_eq] at hc
        exact ⟨hc, h.1, h.2⟩
      · simp at h
    · split at h
      · simp at h
      · simp at h
  · rintro ⟨hc, rfl, rfl⟩
    left
    rw [if_pos (by simpa using hc)]
    simp

/-- When the deferral test fails, the tail shared by the handlers neither cancels the
default action nor schedules a navigation. -/
theorem trackAndDefer_no_deferral (name : String) (e : MouseEvent) (a : Node)
    (h : e.ctrlKey = true ∨ e.metaKey = true ∨ e.shiftKey = true ∨ e.type ≠ "click" ∨
      (a.target ≠ "" ∧ targetIsSelfParentTop a.target = false)) :
    Action.preventDefault ∉ trackAndDefer name e a ∧
      ∀ ms href, Action.setTimeout ms href ∉ trackAndDefer name e a := by
  have hcond : ((a.target != "" && !targetIsSelfParentTop a.target) || e.ctrlKey || e.metaKey ||
      e.shiftKey || !(e.type == "click")) = true := by
    rcases h with h | h | h | h | ⟨h1, h2⟩
    · simp [h]
    · simp [h]
    · simp [h]
    · simp [h]
    · simp [h1, h2]
  unfold trackAndDefer
  simp only [hcond, if_true, List.append_nil]
  constructor
  · split <;> simp
  · intro ms href
    split <;> simp

/-- When the deferral test succeeds on a click, the tail shared by the handlers calls
the entry point, then schedules the navigation after 150 ms and cancels the default
action. -/
theorem trackAndDefer_deferral (name : String) (e : MouseEvent) (a : Node)
    (hclick : e.type = "click") (hctrl : e.ctrlKey = false) (hmeta : e.metaKey = false)
    (hshift : e.shiftKey = false)
    (htarget : a.target = "" ∨ targetIsSelfParentTop a.target = true) :
    trackAndDefer name e a =
      [.track name (urlProps a.href), .setTimeout 150 a.href, .preventDefault] := by
  have hcond : ((a.target != "" && !targetIsSelfParentTop a.target) || e.ctrlKey || e.metaKey ||
      e.shiftKey || !(e.type == "click")) = false := by
    rcases htarget with h | h
    · simp [h, hctrl, hmeta, hshift, hclick]
    · simp [h, hctrl, hmeta, hshift, hclick]
  unfold trackAndDefer
  simp only [hcond]
  simp [hclick]

theorem findAnchor_href (path : List Node) (a : Node) (h : findAnchor path = some a) :
    a.href ≠ "" := by
  induction path with
  | nil => simp [findAnchor] at h
  | cons n rest ih =>
    unfold findAnchor at h
    split at h
    · rename_i hn
      simp only [Option.some.injEq] at h
      subst h
      unfold Node.isLink at hn
      split at hn
      · simp at hn
      · simp only [Bool.and_eq_true, bne_iff_ne, ne_eq] at hn
        exact hn.2
    · exact ih h

theorem fileDownloadHandler_eq (ft : List String) (e : MouseEvent) (a : Node)
    (ha : findAnchor e.path = some a) :
    fileDownloadHandler ft e =
      if extension a.href ∈ ft then trackAndDefer "File Download" e a else [] := by
  unfold fileDownloadHandler
  rw [ha]
  simp only
  have hh := findAnchor_href e.path a ha
  by_cases hx : extension a.href ∈ ft
  · rw [if_pos hx, if_pos]
    simp only [Bool.and_eq_true, bne_iff_ne, ne_eq, List.any_eq_true, beq_iff_eq]
    exact ⟨hh, _, hx, rfl⟩
  · rw [if_neg hx, if_neg]
    simp only [Bool.and_eq_true, bne_iff_ne, ne_eq, List.any_eq_true, beq_iff_eq, not_and,
      not_exists]
    rintro - x hxm rfl
    exact hx hxm

theorem outboundHandler_eq (w : Browser) (e : MouseEvent) (a : Node)
    (ha : findAnchor e.path = some a) :
    outboundHandler w e =
      if a.host ≠ "" ∧ a.host ≠ w.host then trackAndDefer "Outbound Link: Click" e a else [] := by
  unfold outboundHandler
  rw [ha]
  simp only
  have hh := findAnchor_href e.path a ha
  by_cases hx : a.host ≠ "" ∧ a.host ≠ w.host
  · rw [if_pos hx, if_pos]
    simp only [Bool.and_eq_true, bne_iff_ne, ne_eq]
    exact ⟨⟨hh, hx.1⟩, hx.2⟩
  · rw [if_neg hx, if_neg]
    simp only [Bool.and_eq_true, bne_iff_ne, ne_eq]
    rintro ⟨⟨-, h1⟩, h2⟩
    exact hx ⟨h1, h2⟩

/-- C7, as stated, fails: for `https://example.com/report.pdf?v=1` the extension of the
path is `pdf`, a tracked extension, yet a primary click fires nothing; for
`https://example.com/view?file=report.pdf` the path has no tracked extension, yet a
primary click fires "File Download". -/
theorem file_download_ignores_path_extension :
    pathExtensionSpec pdfQueryLink.href ∈ defaultFileTypes ∧
    fileDownloadHandler defaultFileTypes (plainClick [pdfQueryLink]) = [] ∧
    pathExtensionSpec queryPdfLink.href ∉ defaultFileTypes ∧
    Action.track "File Download"
        { meta := .undefined, props := .object [("url", queryPdfLink.href)], callback := .undefined,
          u := .undefined } ∈
      fileDownloadHandler defaultFileTypes (plainClick [queryPdfLink]) := by
  refine ⟨by decide, by rfl, by decide, by decide⟩

/-- C7, amended. For every primary click whose walk selects the anchor `a`, the handler
fires "File Download" with `props.url = a.href` exactly when the text after the final
`.` of the whole `a.href` (query string and fragment included; all of `a.href` when it
holds no `.`) is a member of `fileExtensions`, and it fires no other event. A link to
`…/report.pdf` fires it, a link to `…/page.html` does not. -/
theorem file_download_iff_href_extension (ft : List String) (e : MouseEvent) (a : Node)
    (hclick : e.type = "click") (ha : findAnchor e.path = some a) :
    (Action.track "File Download"
        { meta := .undefined, props := .object [("url", a.href)], callback := .undefined,
          u := .undefined } ∈ fileDownloadHandler ft e ↔
      extension a.href ∈ ft) ∧
    (∀ n o, Action.track n o ∈ fileDownloadHandler ft e →
      n = "File Download" ∧ o =
        { meta := .undefined, props := .object [("url", a.href)], callback := .undefined,
          u := .undefined }) ∧
    ('.' ∉ (extension a.href).toList ∧
      (a.href.toList = (extension a.href).toList ∨
        ∃ pre, a.href.toList = pre ++ '.' :: (extension a.href).toList)) ∧
    Action.track "File Download"
        { meta := .undefined, props := .object [("url", pdfLink.href)], callback := .undefined,
          u := .undefined } ∈
      fileDownloadHandler defaultFileTypes (plainClick [pdfLink]) ∧
    fileDownloadHandler defaultFileTypes (plainClick [htmlLink]) = [] := by
  refine ⟨?_, ?_, extension_after_final_dot a.href, by decide, by rfl⟩
  · rw [fileDownloadHandler_eq ft e a ha]
    by_cases hx : extension a.href ∈ ft
    · rw [if_pos hx]
      exact iff_of_true ((mem_trackAndDefer_track _ e a _ _).mpr ⟨Or.inr hclick, rfl, rfl⟩) hx
    · rw [if_neg hx]
      exact iff_of_false (by simp) hx
  · intro n o h
    rw [fileDownloadHandler_eq ft e a ha] at h
    split at h
    · exact ((mem_trackAndDefer_track _ e a n o).mp h).2
    · simp at h

/-- Witness for C7 (amended): a primary click on a `span` inside a link to a PDF. -/
theorem file_download_iff_href_extension_witness :
    (plainClick [spanNode, pdfLink]).type = "click" ∧
    findAnchor (plainClick [spanNode, pdfLink]).path = some pdfLink ∧
    (Action.track "File Download"
        { meta := .undefined, props := .object [("url", pdfLink.href)], callback := .undefined,
          u := .undefined } ∈
        fileDownloadHandler defaultFileTypes (plainClick [spanNode, pdfLink]) ↔
      extension pdfLink.href ∈ defaultFileTypes) :=
  ⟨by rfl, by rfl,
    (file_download_iff_href_extension defaultFileTypes (plainClick [spanNode, pdfLink]) pdfLink
      (by rfl) (by rfl)).1⟩

/-- C8. In the outbound-links build, for every `click` or middle-button `auxclick` whose
walk selects an anchor `a` (the nearest anchor with a non-empty `href`) with a non-empty
`host`: the outbound handler fires "Outbound Link: Click" with `props.url = a.href`
exactly when `a.host` differs from the host of the page; on the same host it does
nothing at all, whatever the path. -/
theorem outbound_iff_other_host (w : Browser) (e : MouseEvent) (a : Node)
    (hev : e.type = "click" ∨ (e.type = "auxclick" ∧ e.which = 2))
    (ha : findAnchor e.path = some a) (hhost : a.host ≠ "") :
    (Action.track "Outbound Link: Click"
        { meta := .undefined, props := .object [("url", a.href)], callback := .undefined,
          u := .undefined } ∈ outboundHandler w e ↔
      a.host ≠ w.host) ∧
    (a.host = w.host → outboundHandler w e = []) ∧
    (∀ n o, Action.track n o ∈ outboundHandler w e →
      n = "Outbound Link: Click" ∧ o =
        { meta := .undefined, props := .object [("url", a.href)], callback := .undefined,
          u := .undefined }) := by
  have hout := outboundHandler_eq w e a ha
  refine ⟨?_, ?_, ?_⟩
  · rw [hout]
    by_cases hx : a.host = w.host
    · rw [if_neg (fun h => h.2 hx)]
      exact iff_of_false (by simp) (fun h => h hx)
    · rw [if_pos ⟨hhost, hx⟩]
      exact iff_of_true ((mem_trackAndDefer_track _ e a _ _).mpr ⟨hev.symm, rfl, rfl⟩) hx
  · intro hx
    rw [hout, if_neg (fun h => h.2 hx)]
  · intro n o h
    rw [hout] at h
    split at h
    · exact ((mem_trackAndDefer_track _ e a n o).mp h).2
    · simp at h

/-- Witness for C8: a middle click on a link to another site. -/
theorem outbound_iff_other_host_witness :
    ((middleClick [otherSiteLink]).type = "click" ∨
      ((middleClick [otherSiteLink]).type = "auxclick" ∧ (middleClick [otherSiteLink]).which = 2)) ∧
    findAnchor (middleClick [otherSiteLink]).path = some otherSiteLink ∧
    otherSiteLink.host ≠ "" ∧
    (Action.track "Outbound Link: Click"
        { meta := .undefined, props := .object [("url", otherSiteLink.href)], callback := .undefined,
          u := .undefined } ∈
        outboundHandler sampleBrowser (middleClick [otherSiteLink]) ↔
      otherSiteLink.host ≠ sampleBrowser.host) :=
  ⟨Or.inr ⟨by rfl, by rfl⟩, by rfl, by decide,
    (outbound_iff_other_host sampleBrowser (middleClick [otherSiteLink]) otherSiteLink
      (Or.inr ⟨by rfl, by rfl⟩) (by rfl) (by decide)).1⟩

/-- C9. For every primary click (`click`, no modifier key held) whose walk selects an
anchor `a` with an empty target attribute or a target `_self`, `_parent` or `_top` in
any letter case: when `a` is classified (its extension is tracked, for the file-download
handler; its host is non-empty and differs from the page's, for the outbound handler),
the handler first calls the entry point with the tracking event, then schedules
`location.href = a.href` after exactly 150 ms and cancels the default action. -/
theorem primary_click_defers_navigation (ft : List String) (w : Browser) (e : MouseEvent)
    (a : Node) (hclick : e.type = "click")
    (hmod : e.ctrlKey = false ∧ e.metaKey = false ∧ e.shiftKey = false ∧ e.altKey = false)
    (ha : findAnchor e.path = some a)
    (htarget : a.target = "" ∨ targetIsSelfParentTop a.target = true) :
    (extension a.href ∈ ft →
      fileDownloadHandler ft e =
        [.track "File Download" (urlProps a.href), .setTimeout 150 a.href, .preventDefault]) ∧
    (a.host ≠ "" → a.host ≠ w.host →
      outboundHandler w e =
        [.track "Outbound Link: Click" (urlProps a.href), .setTimeout 150 a.href,
         .preventDefault]) := by
  constructor
  · intro hx
    rw [fileDownloadHandler_eq ft e a ha, if_pos hx]
    exact trackAndDefer_deferral _ e a hclick hmod.1 hmod.2.1 hmod.2.2.1 htarget
  · intro h1 h2
    rw [outboundHandler_eq w e a ha, if_pos ⟨h1, h2⟩]
    exact trackAndDefer_deferral _ e a hclick hmod.1 hmod.2.1 hmod.2.2.1 htarget

/-- Witness for C9: a primary click on a link to a PDF with an empty target. -/
theorem primary_click_defers_navigation_witness :
    (plainClick [pdfLink]).type = "click" ∧
    findAnchor (plainClick [pdfLink]).path = some pdfLink ∧
    (pdfLink.target = "" ∨ targetIsSelfParentTop pdfLink.target = true) ∧
    extension pdfLink.href ∈ defaultFileTypes ∧
    fileDownloadHandler defaultFileTypes (plainClick [pdfLink]) =
      [.track "File Download" (urlProps pdfLink.href), .setTimeout 150 pdfLink.href,
       .preventDefault] :=
  ⟨by rfl, by rfl, Or.inl (by rfl), by decide,
    (primary_click_defers_navigation defaultFileTypes sampleBrowser (plainClick [pdfLink]) pdfLink
      (by rfl) ⟨by rfl, by rfl, by rfl, by rfl⟩ (by rfl) (Or.inl (by rfl))).1 (by decide)⟩

/-- C10, as stated, fails: on a primary click with the alt key held (and no other
modifier) on a classified link with an empty target, both handlers schedule the
navigation and cancel the default action. -/
theorem alt_click_is_deferred :
    (altClick [pdfLink]).altKey = true ∧
    fileDownloadHandler defaultFileTypes (altClick [pdfLink]) =
      [.track "File Download" (urlProps pdfLink.href), .setTimeout 150 pdfLink.href,
       .preventDefault] ∧
    outboundHandler sampleBrowser (altClick [otherSiteLink]) =
      [.track "Outbound Link: Click" (urlProps otherSiteLink.href),
       .setTimeout 150 otherSiteLink.href, .preventDefault] := by
  refine ⟨by rfl, by rfl, by rfl⟩

/-- C10, amended. For every event whose walk selects an anchor `a`, if the ctrl, meta or
shift key is held, or the event is an `auxclick`, or the target attribute of `a` is
non-empty and not `_self`, `_parent` or `_top`, then neither handler cancels the default
action or schedules a navigation; and when the event is a `click` or a middle-button
`auxclick`, the tracking event of a classified link is still fired. -/
theorem no_deferral_when_modified_aux_or_new_tab (ft : List String) (w : Browser)
    (e : MouseEvent) (a : Node) (ha : findAnchor e.path = some a)
    (h : e.ctrlKey = true ∨ e.metaKey = true ∨ e.shiftKey = true ∨ e.type = "auxclick" ∨
      (a.target ≠ "" ∧ targetIsSelfParentTop a.target = false)) :
    (Action.preventDefault ∉ fileDownloadHandler ft e ∧
      ∀ ms href, Action.setTimeout ms href ∉ fileDownloadHandler ft e) ∧
    (Action.preventDefault ∉ outboundHandler w e ∧
      ∀ ms href, Action.setTimeout ms href ∉ outboundHandler w e) ∧
    ((e.type = "click" ∨ (e.type = "auxclick" ∧ e.which = 2)) →
      (extension a.href ∈ ft →
        Action.track "File Download" (urlProps a.href) ∈ fileDownloadHandler ft e) ∧
      (a.host ≠ "" → a.host ≠ w.host →
        Action.track "Outbound Link: Click" (urlProps a.href) ∈ outboundHandler w e)) := by
  have h2 : e.ctrlKey = true ∨ e.metaKey = true ∨ e.shiftKey = true ∨ e.type ≠ "click" ∨
      (a.target ≠ "" ∧ targetIsSelfParentTop a.target = false) := by
    rcases h with h | h | h | h | h
    · exact Or.inl h
    · exact Or.inr (Or.inl h)
    · exact Or.inr (Or.inr (Or.inl h))
    · exact Or.inr (Or.inr (Or.inr (Or.inl (by rw [h]; decide))))
    · exact Or.inr (Or.inr (Or.inr (Or.inr h)))
  refine ⟨?_, ?_, ?_⟩
  · rw [fileDownloadHandler_eq ft e a ha]
    split
    · exact trackAndDefer_no_deferral _ e a h2
    · simp
  · rw [outboundHandler_eq w e a ha]
    split
    · exact trackAndDefer_no_deferral _ e a h2
    · simp
  · intro hev
    constructor
    · intro hx
      rw [fileDownloadHandler_eq ft e a ha, if_pos hx]
      exact (mem_trackAndDefer_track _ e a _ _).mpr ⟨hev.symm, rfl, rfl⟩
    · intro h3 h4
      rw [outboundHandler_eq w e a ha, if_pos ⟨h3, h4⟩]
      exact (mem_trackAndDefer_track _ e a _ _).mpr ⟨hev.symm, rfl, rfl⟩

/-- Witness for C10 (amended): a middle click on a link to a PDF. -/
theorem no_deferral_when_modified_aux_or_new_tab_witness :
    findAnchor (middleClick [pdfLink]).path = some pdfLink ∧
    (middleClick [pdfLink]).type = "auxclick" ∧
    Action.preventDefault ∉ fileDownloadHandler defaultFileTypes (middleClick [pdfLink]) ∧
    Action.track "File Download" (urlProps pdfLink.href) ∈
      fileDownloadHandler defaultFileTypes (middleClick [pdfLink]) :=
  have h := no_deferral_when_modified_aux_or_new_tab defaultFileTypes sampleBrowser
    (middleClick [pdfLink]) pdfLink (by rfl) (Or.inr (Or.inr (Or.inr (Or.inl (by rfl)))))
  ⟨by rfl, by rfl, h.1.1, (h.2.2 (Or.inr ⟨by rfl, by rfl⟩)).1 (by decide)⟩

/-! ## Automatic page views -/

theorem runEvents_append (v : Variant) (rx : RegExpEngine) (cfg : Config)
    (listeners : List String) (pre rest : List PageEvent) :
    ∀ last, runEvents v rx cfg listeners last (pre ++ rest) =
      runEvents v rx cfg listeners last pre ++
        runEvents v rx cfg listeners (recordedAfter v rx cfg listeners last pre) rest := by
  induction pre with
  | nil => intro last; rfl
  | cons ev pre ih =>
    intro last
    rw [List.cons_append]
    simp only [runEvents, recordedAfter]
    rw [ih]
    rfl

theorem recordedAfter_append (v : Variant) (rx : RegExpEngine) (cfg : Config)
    (listeners : List String) (pre rest : List PageEvent) :
    ∀ last, recordedAfter v rx cfg listeners last (pre ++ rest) =
      recordedAfter v rx cfg listeners (recordedAfter v rx cfg listeners last pre) rest := by
  induction pre with
  | nil => intro last; rfl
  | cons ev pre ih =>
    intro last
    rw [List.cons_append]
    simp only [recordedAfter]
    rw [ih]

/-- The trigger of the history build: called with "pageview" exactly when the path
differs from the recorded one, and the path is recorded afterwards. -/
theorem pageviewTrigger_history (v : Variant) (rx : RegExpEngine) (cfg : Config)
    (last : Option String) (w : Browser) (hv : v.hash = false) :
    (pageviewTrigger v rx cfg last w).2 =
      (if last = some w.pathname then none else some (dispatch v rx cfg w "pageview" none)) ∧
    (pageviewTrigger v rx cfg last w).1 = some w.pathname := by
  unfold pageviewTrigger
  by_cases h : last = some w.pathname
  · simp [hv, h]
  · simp [hv, h]

/-- The trigger of the hash builds: always called, the path is recorded. -/
theorem pageviewTrigger_hash (v : Variant) (rx : RegExpEngine) (cfg : Config)
    (last : Option String) (w : Browser) (hv : v.hash = true) :
    pageviewTrigger v rx cfg last w =
      (some w.pathname, some (dispatch v rx cfg w "pageview" none)) := by
  unfold pageviewTrigger
  simp [hv]

/-- C11. History strategy (a build without `hash` whose `popstate` listener and
`pushState` wrapper are installed): in every sequence of notifications, a push or pop
calls the dispatcher with "pageview" exactly when the current path differs from the
path recorded so far, and the current path is the recorded one afterwards; two
consecutive pushes to one path dispatch one page view. Hash strategy (a build with
`hash` whose `hashchange` listener is installed): in every sequence, a hash change
calls the dispatcher with "pageview" and records the path; two consecutive hash
changes dispatch two page views. -/
theorem navigation_dedup_by_strategy (v : Variant) (rx : RegExpEngine) (cfg : Config)
    (listeners : List String) (last : Option String) (pre post : List PageEvent)
    (w w2 : Browser) (hsame : w2.pathname = w.pathname) :
    (v.hash = false → "popstate" ∈ listeners →
      (∀ ev, ev = PageEvent.pushState w ∨ ev = PageEvent.popstate w →
        runEvents v rx cfg listeners last (pre ++ ev :: post) =
          runEvents v rx cfg listeners last pre ++
            (ev, if recordedAfter v rx cfg listeners last pre = some w.pathname then none
                 else some (dispatch v rx cfg w "pageview" none)) ::
            runEvents v rx cfg listeners (some w.pathname) post) ∧
      (last ≠ some w.pathname →
        (runEvents v rx cfg listeners last [.pushState w, .pushState w2]).map (fun x => x.2) =
          [some (dispatch v rx cfg w "pageview" none), none])) ∧
    (v.hash = true → "hashchange" ∈ listeners →
      runEvents v rx cfg listeners last (pre ++ PageEvent.hashchange w :: post) =
        runEvents v rx cfg listeners last pre ++
          (PageEvent.hashchange w, some (dispatch v rx cfg w "pageview" none)) ::
          runEvents v rx cfg listeners (some w.pathname) post ∧
      (runEvents v rx cfg listeners last [.hashchange w, .hashchange w2]).map (fun x => x.2) =
        [some (dispatch v rx cfg w "pageview" none),
         some (dispatch v rx cfg w2 "pageview" none)]) := by
  constructor
  · intro hv hl
    constructor
    · intro ev hev
      have hreact : ∀ l, react v rx cfg listeners l ev = pageviewTrigger v rx cfg l w := by
        intro l
        rcases hev with rfl | rfl <;> simp [react, hl]
      rw [runEvents_append]
      simp only [runEvents, hreact, (pageviewTrigger_history v rx cfg _ w hv).1,
        (pageviewTrigger_history v rx cfg _ w hv).2]
    · intro hne
      simp only [runEvents, react, hl, if_true, List.map_cons, List.map_nil,
        (pageviewTrigger_history v rx cfg _ w hv).1, (pageviewTrigger_history v rx cfg _ w hv).2,
        (pageviewTrigger_history v rx cfg _ w2 hv).1, if_neg hne, hsame, if_true]
  · intro hv hl
    constructor
    · rw [runEvents_append]
      simp only [runEvents, react, hl, if_true, pageviewTrigger_hash v rx cfg _ _ hv]
    · simp only [runEvents, react, hl, if_true, pageviewTrigger_hash v rx cfg _ _ hv,
        List.map_cons, List.map_nil]

/-- Witness for C11: two pushes to `/a` in the history build dispatch one page view, two
hash changes on `/a` in a hash build dispatch two. -/
theorem navigation_dedup_by_strategy_witness :
    browserAtA.pathname = browserAtA.pathname ∧
    (runEvents exclusionsFileDownloads jsRegExp openConfig ["popstate"] (some "/blog/2024/post")
        [.pushState browserAtA, .pushState browserAtA]).map (fun x => x.2) =
      [some (dispatch exclusionsFileDownloads jsRegExp openConfig browserAtA "pageview" none),
       none] ∧
    (runEvents fileDownloadsHash jsRegExp openConfig ["hashchange"] (some "/blog/2024/post")
        [.hashchange browserAtA, .hashchange browserAtA]).map (fun x => x.2) =
      [some (dispatch fileDownloadsHash jsRegExp openConfig browserAtA "pageview" none),
       some (dispatch fileDownloadsHash jsRegExp openConfig browserAtA "pageview" none)] :=
  have h := navigation_dedup_by_strategy exclusionsFileDownloads jsRegExp openConfig ["popstate"]
    (some "/blog/2024/post") [] [] browserAtA browserAtA rfl
  have h2 := navigation_dedup_by_strategy fileDownloadsHash jsRegExp openConfig ["hashchange"]
    (some "/blog/2024/post") [] [] browserAtA browserAtA rfl
  ⟨rfl, (h.1 rfl (by decide)).2 (by decide), (h2.2 rfl (by decide)).2⟩

/-- What the tracker script leaves behind in a build with automatic page views, when the
configuration is readable and the replay does not throw. -/
theorem install_automatic (v : Variant) (rx : RegExpEngine) (page : Page) (cfg : Config)
    (hcfg : readConfig v page.script = some cfg) (hm : v.manual = false)
    (hreplay : (runCalls (fun c => dispatch v rx cfg page.browser c.name c.options)
      page.entry.queue).getLast? ≠ some .threw) :
    (install v rx page).listeners =
      ((if v.outboundLinks then ["click", "auxclick"] else []) ++ ["click", "auxclick"]) ++
        observerListeners v page.browser ∧
    (install v rx page).results =
      runCalls (fun c => dispatch v rx cfg page.browser c.name c.options) page.entry.queue ++
        (if page.browser.visibilityState = "prerender" then []
         else [dispatch v rx cfg page.browser "pageview" none]) ∧
    (install v rx page).lastPath =
      (if page.browser.visibilityState = "prerender" then none
       else some page.browser.pathname) := by
  unfold install
  simp only [hcfg, if_neg hreplay, hm, Bool.false_eq_true, if_false]
  by_cases hp : page.browser.visibilityState = "prerender"
  · simp [hp]
  · simp [hp]

/-! ## The payload -/

/-- C12, as stated, fails: with `options.meta = 0` and `options.props = ""`, both
supplied and both with a JSON text, the request is sent without `m` and without `p`. -/
theorem falsy_meta_and_props_are_dropped :
    falsyOptions.meta ≠ .undefined ∧ falsyOptions.props ≠ .undefined ∧
    jsonStringify falsyOptions.meta = some "0" ∧
    jsonStringify falsyOptions.props = some "\"\"" ∧
    (requests [dispatch fileDownloadsHash jsRegExp openConfig sampleBrowser "Signup"
        (some falsyOptions)]).map (fun r => (r.body.n, r.body.m, r.body.p)) =
      [("Signup", none, none)] := by
  refine ⟨by decide, by decide, by rfl, by rfl, by rfl⟩

/-- C12, amended. For every call that passes all checks (no loopback context,
automation marker or opt-out flag; the exclusion check completes without a match) and
every `options` value: exactly one request is sent; its payload has `n` the name, `u`
the page URL (in the manual build `options.u` when that is truthy), `d` the
`data-domain` attribute, `r` the referrer or `null` when it is empty, `w` the viewport
width, `m` the JSON text of `options.meta` and `p` the JSON text of `options.props`,
each present exactly when the value is truthy and has a JSON text (a falsy value such
as `0`, `""`, `false`, `null` gives no field), and `h = 1` exactly in the builds with
`hash`: present in the three hash builds, absent in
`plausible.exclusions.file-downloads`. The payload has no other field. The JSON text
of a map lists its properties as quoted `key:value` pairs between braces, array-index
keys first. -/
theorem payload_fields (v : Variant) (rx : RegExpEngine) (cfg : Config) (w : Browser)
    (name : String) (t : Option Options) (hw : w.unsuppressed v)
    (hex : v.exclusions = true → exclusionCheck rx cfg name w.pathname = .pass) :
    requests [dispatch v rx cfg w name t] =
      [{ url := cfg.endpoint,
         body :=
          { n := name
            u := match t with
              | some o => if v.manual = true ∧ o.u.truthy = true then o.u else .string w.href
              | none => .string w.href
            d := cfg.domain
            r := if w.referrer = "" then none else some w.referrer
            w := w.innerWidth
            m := match t with
              | some o => if o.meta.truthy = true then jsonStringify o.meta else none
              | none => none
            p := match t with
              | some o => if o.props.truthy = true then jsonStringify o.props else none
              | none => none
            h := if v.hash = true then some 1 else none }
         options := t }] ∧
    (∀ x : JSVal, (if x.truthy = true then jsonStringify x else none).isSome = true ↔
      x.truthy = true ∧ ∀ id, x ≠ .function id) ∧
    (∀ x : JSVal, x.truthy = true ↔
      x ≠ .undefined ∧ x ≠ .null ∧ x ≠ .bool false ∧ x ≠ .string "" ∧
        ∀ negative, x ≠ .number negative 0) ∧
    jsonStringify (.object [("plan", "pro")]) = some "\x7b\"plan\":\"pro\"\x7d" ∧
    jsonStringify (.object [("url", "x"), ("2", "b"), ("url", "c"), ("1", "a")]) =
      some "\x7b\"1\":\"a\",\"2\":\"b\",\"url\":\"c\"\x7d" ∧
    jsonStringify (.object []) = some "\x7b\x7d" ∧
    jsonStringify (.string "a\"b\\c") = some "\"a\\\"b\\\\c\"" ∧
    jsonStringify (.number true 42) = some "-42" ∧
    jsonStringify (.bool true) = some "true" ∧
    fileDownloadsHash.hash = true ∧ compatExclusionsFileDownloadsHashLocal.hash = true ∧
    compatExclusionsFileDownloadsHashLocalManualOutboundLinks.hash = true ∧
    exclusionsFileDownloads.hash = false := by
  have hd : dispatch v rx cfg w name t =
      .sent { url := cfg.endpoint, body := buildPayload v cfg w name t, options := t } := by
    rw [dispatch_unsuppressed v rx cfg w name t hw]
    by_cases hv : v.exclusions = true
    · simp only [hv, if_true, hex hv]
    · simp only [hv, Bool.false_eq_true, if_false]
  refine ⟨?_, ?_, ?_, by rfl, by rfl, by rfl, by rfl, by rfl, by rfl, rfl, rfl, rfl, rfl⟩
  · rw [hd]
    simp only [requests]
    cases t with
    | none => simp [buildPayload]
    | some o =>
      have hu : (if (v.manual && o.u.truthy) = true then o.u else JSVal.string w.href) =
          (if v.manual = true ∧ o.u.truthy = true then o.u else JSVal.string w.href) := by
        by_cases h1 : v.manual = true <;> by_cases h2 : o.u.truthy = true <;> simp [h1, h2]
      simp only [buildPayload, hu]
  · intro x
    cases x <;> simp [JSVal.truthy, jsonStringify]
  · intro x
    cases x with
    | undefined => simp [JSVal.truthy]
    | null => simp [JSVal.truthy]
    | bool b => cases b <;> simp [JSVal.truthy]
    | number negative m =>
      simp only [JSVal.truthy, bne_iff_ne, ne_eq, JSVal.number.injEq, not_and, reduceCtorEq,
        not_false_eq_true, true_and]
      constructor
      · intro h negative2 _ hm
        exact h (by rw [hm]; rfl)
      · intro h hm
        exact h negative rfl (Fin.ext hm)
    | string s => simp [JSVal.truthy]
    | object f => simp [JSVal.truthy]
    | function id => simp [JSVal.truthy]

/-- Witness for C12 (amended): `plausible("Signup", …)` in the manual build with a `meta`
map and a URL override. -/
theorem payload_fields_witness :
    (requests [dispatch compatExclusionsFileDownloadsHashLocalManualOutboundLinks jsRegExp
        openConfig sampleBrowser "Signup" (some sampleOptions)]).map
      (fun r => (r.body.n, r.body.u, r.body.m, r.body.p, r.body.h)) =
      [("Signup", JSVal.string "https://example.com/virtual",
        some "\x7b\"plan\":\"pro\"\x7d", none, some 1)] := by
  have h := payload_fields compatExclusionsFileDownloadsHashLocalManualOutboundLinks jsRegExp
    openConfig sampleBrowser "Signup" (some sampleOptions) (sampleBrowser_unsuppressed _)
    (fun _ => by rfl)
  rw [h.1]
  rfl

/-! ## Installation errors -/

/-- C13, evaluated: with no script element the preamble raises (in every build, for
every page), nothing is installed and nothing is sent; with a script element of the
exclusions build that lacks `data-exclude` the preamble raises as well, although a
missing `file-types` or `data-domain` attribute is tolerated. -/
theorem install_throws_without_configuration (v : Variant) (rx : RegExpEngine)
    (entry : EntryPoint) (w : Browser) :
    (install v rx { script := none, entry := entry, browser := w }).threw = true ∧
    (install v rx { script := none, entry := entry, browser := w }).entry = entry ∧
    (install v rx { script := none, entry := entry, browser := w }).results = [] ∧
    (install v rx { script := none, entry := entry, browser := w }).listeners = [] ∧
    (install exclusionsFileDownloads rx
      { script := some noExcludeScript, entry := entry, browser := w }).threw = true ∧
    (install fileDownloadsHash jsRegExp
      { script := some noExcludeScript, entry := .absent, browser := sampleBrowser }).threw
        = false := by
  refine ⟨by rfl, by rfl, by rfl, by rfl, by rfl, by rfl⟩

/-! ## Diagnostics -/

/-- C14, as stated, fails: with an automation marker present the dispatcher returns
without a request and without any warning. -/
theorem automation_marker_is_silent :
    webdriverBrowser.webdriver = true ∧
    dispatch exclusionsFileDownloads jsRegExp sampleConfig webdriverBrowser "pageview" none
      = .ignored ∧
    requests [dispatch exclusionsFileDownloads jsRegExp sampleConfig webdriverBrowser
      "pageview" none] = [] ∧
    warnings [dispatch exclusionsFileDownloads jsRegExp sampleConfig webdriverBrowser
      "pageview" none] = [] := by
  refine ⟨by rfl, by rfl, by rfl, by rfl⟩

/-- Every call of the dispatcher falls under exactly one of these cases, tested in this
order. -/
theorem dispatch_cases (v : Variant) (rx : RegExpEngine) (cfg : Config) (w : Browser)
    (name : String) (t : Option Options) :
    ((v.localhostCheck && (localhostRe.test w.hostname.toList || w.protocol == "file:")) = true →
      dispatch v rx cfg w name t = .warned "localhost") ∧
    ((v.localhostCheck && (localhostRe.test w.hostname.toList || w.protocol == "file:")) = false →
      (w.phantom || w.nightmare || w.webdriver || w.cypress) = true →
      dispatch v rx cfg w name t = .ignored) ∧
    ((v.localhostCheck && (localhostRe.test w.hostname.toList || w.protocol == "file:")) = false →
      (w.phantom || w.nightmare || w.webdriver || w.cypress) = false →
      w.storage = .value (some "true") →
      dispatch v rx cfg w name t = .warned "localStorage flag") := by
  unfold dispatch
  refine ⟨?_, ?_, ?_⟩
  · intro h1
    rw [if_pos h1]
  · intro h1 h2
    rw [if_neg (by rw [h1]; decide), if_pos h2]
  · intro h1 h2 h3
    rw [if_neg (by rw [h1]; decide), if_neg (by rw [h2]; decide), if_pos h3]

/-- C14, amended. A call stopped by the loopback/file check, by the opt-out flag or by
an exclusion rule emits exactly one warning, "Ignoring Event: localhost",
"Ignoring Event: localStorage flag" or "Ignoring Event: exclusion rule" respectively,
and sends nothing; a call stopped by an automation marker sends nothing and emits no
warning. -/
theorem suppression_diagnostics (v : Variant) (rx : RegExpEngine) (cfg : Config) (w : Browser)
    (name : String) (t : Option Options) :
    ((v.localhostCheck && (localhostRe.test w.hostname.toList || w.protocol == "file:")) = true →
      warnings [dispatch v rx cfg w name t] = ["Ignoring Event: localhost"] ∧
      requests [dispatch v rx cfg w name t] = []) ∧
    ((v.localhostCheck && (localhostRe.test w.hostname.toList || w.protocol == "file:")) = false →
      (w.phantom || w.nightmare || w.webdriver || w.cypress) = true →
      warnings [dispatch v rx cfg w name t] = [] ∧ requests [dispatch v rx cfg w name t] = []) ∧
    ((v.localhostCheck && (localhostRe.test w.hostname.toList || w.protocol == "file:")) = false →
      (w.phantom || w.nightmare || w.webdriver || w.cypress) = false →
      w.storage = .value (some "true") →
      warnings [dispatch v rx cfg w name t] = ["Ignoring Event: localStorage flag"] ∧
      requests [dispatch v rx cfg w name t] = []) ∧
    (w.unsuppressed v → v.exclusions = true →
      exclusionCheck rx cfg name w.pathname = .excluded →
      warnings [dispatch v rx cfg w name t] = ["Ignoring Event: exclusion rule"] ∧
      requests [dispatch v rx cfg w name t] = []) := by
  obtain ⟨c1, c2, c3⟩ := dispatch_cases v rx cfg w name t
  refine ⟨?_, ?_, ?_, ?_⟩
  · intro h1
    rw [c1 h1]
    exact ⟨rfl, rfl⟩
  · intro h1 h2
    rw [c2 h1 h2]
    exact ⟨rfl, rfl⟩
  · intro h1 h2 h3
    rw [c3 h1 h2 h3]
    exact ⟨rfl, rfl⟩
  · intro hw hv hx
    rw [dispatch_unsuppressed v rx cfg w name t hw]
    simp only [hv, if_true, hx]
    exact ⟨rfl, rfl⟩

/-- Witness for C14 (amended): the opt-out flag, and the exclusion rule `/blog/**` on
`/blog/2024/post`. -/
theorem suppression_diagnostics_witness :
    warnings [dispatch fileDownloadsHash jsRegExp sampleConfig optedOutBrowser "pageview" none]
      = ["Ignoring Event: localStorage flag"] ∧
    warnings [dispatch exclusionsFileDownloads jsRegExp sampleConfig sampleBrowser "pageview"
      none] = ["Ignoring Event: exclusion rule"] :=
  have h := suppression_diagnostics fileDownloadsHash jsRegExp sampleConfig optedOutBrowser
    "pageview" none
  have h2 := suppression_diagnostics exclusionsFileDownloads jsRegExp sampleConfig sampleBrowser
    "pageview" none
  ⟨(h.2.2.1 (by decide) (by decide) (by rfl)).1,
    (h2.2.2.2 (sampleBrowser_unsuppressed _) (by rfl) (by rfl)).1⟩

/-! ## The opt-out flag -/

/-- C15. With no loopback context and no automation marker: the dispatcher stops with
the opt-out warning exactly when reading `plausible_ignore` succeeds and yields
`"true"`; when the read throws, the call behaves exactly as with the flag unset, and
sends its request whenever the exclusion check lets it pass. -/
theorem opt_out_read_defensively (v : Variant) (rx : RegExpEngine) (cfg : Config) (w : Browser)
    (name : String) (t : Option Options)
    (hlocal : (v.localhostCheck &&
      (localhostRe.test w.hostname.toList || w.protocol == "file:")) = false)
    (hbot : (w.phantom || w.nightmare || w.webdriver || w.cypress) = false) :
    (dispatch v rx cfg w name t = .warned "localStorage flag" ↔
      w.storage = .value (some "true")) ∧
    (w.storage = .throws →
      dispatch v rx cfg w name t = dispatch v rx cfg { w with storage := .value none } name t ∧
      ((v.exclusions = true → exclusionCheck rx cfg name w.pathname = .pass) →
        dispatch v rx cfg w name t =
          .sent { url := cfg.endpoint, body := buildPayload v cfg w name t, options := t })) := by
  constructor
  · constructor
    · intro h
      by_contra hs
      rw [dispatch_unsuppressed v rx cfg w name t ⟨hlocal, hbot, hs⟩] at h
      split at h
      · exact absurd h (by decide)
      · exact absurd h (by simp)
      · exact absurd h (by simp)
    · intro hs
      exact (dispatch_cases v rx cfg w name t).2.2 hlocal hbot hs
  · intro hs
    have hw : w.unsuppressed v := ⟨hlocal, hbot, by rw [hs]; simp⟩
    have hw2 : Browser.unsuppressed v { w with storage := .value none } := ⟨hlocal, hbot, by simp⟩
    refine ⟨?_, ?_⟩
    · rw [dispatch_unsuppressed v rx cfg w name t hw, dispatch_unsuppressed v rx cfg _ name t hw2]
      rfl
    · intro hex
      rw [dispatch_unsuppressed v rx cfg w name t hw]
      by_cases hv : v.exclusions = true
      · simp only [hv, if_true, hex hv]
      · simp only [hv, Bool.false_eq_true, if_false]

/-- Witness for C15: storage access denied in the hash build; the page view is sent. -/
theorem opt_out_read_defensively_witness :
    blockedStorageBrowser.storage = .throws ∧
    dispatch fileDownloadsHash jsRegExp openConfig blockedStorageBrowser "pageview" none =
      .sent { url := openConfig.endpoint,
              body := buildPayload fileDownloadsHash openConfig blockedStorageBrowser "pageview"
                none,
              options := none } :=
  ⟨rfl, ((opt_out_read_defensively fileDownloadsHash jsRegExp openConfig blockedStorageBrowser
    "pageview" none (by decide) (by decide)).2 rfl).2 (fun h => absurd h (by decide))⟩

/-! ## Prerendered pages -/

theorem pageviewTrigger_recorded (v : Variant) (rx : RegExpEngine) (cfg : Config)
    (last : Option String) (w : Browser) :
    (pageviewTrigger v rx cfg last w).1 = some w.pathname := by
  unfold pageviewTrigger
  by_cases hv : v.hash = true
  · simp [hv]
  · by_cases h : last = some w.pathname
    · simp [hv, h]
    · simp [hv, h]

/-- After any notification the recorded path is the one recorded before or the current
path. -/
theorem react_recorded (v : Variant) (rx : RegExpEngine) (cfg : Config)
    (listeners : List String) (last : Option String) (ev : PageEvent) :
    (react v rx cfg listeners last ev).1 = last ∨
      (react v rx cfg listeners last ev).1 = some ev.browser.pathname := by
  cases ev with
  | pushState w =>
    simp only [react, PageEvent.browser]
    split
    · exact Or.inr (pageviewTrigger_recorded v rx cfg last w)
    · exact Or.inl rfl
  | popstate w =>
    simp only [react, PageEvent.browser]
    split
    · exact Or.inr (pageviewTrigger_recorded v rx cfg last w)
    · exact Or.inl rfl
  | hashchange w =>
    simp only [react, PageEvent.browser]
    split
    · exact Or.inr (pageviewTrigger_recorded v rx cfg last w)
    · exact Or.inl rfl
  | visibilitychange w =>
    simp only [react, PageEvent.browser, visibilityListener]
    split
    · split
      · exact Or.inl rfl
      · exact Or.inr (pageviewTrigger_recorded v rx cfg last w)
    · exact Or.inl rfl

theorem recordedTruthy_some (p : String) (h : p ≠ "") : recordedTruthy (some p) = true := by
  simp [recordedTruthy, h]

theorem react_truthy (v : Variant) (rx : RegExpEngine) (cfg : Config)
    (listeners : List String) (last : Option String) (ev : PageEvent)
    (hp : ev.browser.pathname ≠ "") (h : recordedTruthy last = true) :
    recordedTruthy (react v rx cfg listeners last ev).1 = true := by
  rcases react_recorded v rx cfg listeners last ev with h1 | h1
  · rw [h1]; exact h
  · rw [h1]; exact recordedTruthy_some _ hp

/-- The `visibilitychange` listener calls the dispatcher only while nothing truthy is
recorded and the page is visible; it then records the current path. -/
theorem react_visibility (v : Variant) (rx : RegExpEngine) (cfg : Config)
    (listeners : List String) (last : Option String) (w : Browser)
    (h : (react v rx cfg listeners last (.visibilitychange w)).2.isSome = true) :
    recordedTruthy last = false ∧ w.visibilityState = "visible" ∧
      "visibilitychange" ∈ listeners ∧
      (react v rx cfg listeners last (.visibilitychange w)).1 = some w.pathname := by
  simp only [react, visibilityListener] at h ⊢
  by_cases hl : "visibilitychange" ∈ listeners
  · simp only [hl, if_true] at h ⊢
    by_cases hc : (recordedTruthy last || w.visibilityState != "visible") = true
    · simp [hc] at h
    · simp only [hc, Bool.false_eq_true, if_false]
      simp only [Bool.or_eq_true, bne_iff_ne, ne_eq, not_or, Bool.not_eq_true, not_not] at hc
      exact ⟨hc.1, hc.2, trivial, pageviewTrigger_recorded v rx cfg last w⟩
  · simp [hl] at h

theorem visibilityDispatches_cons (x : PageEvent × Option DispatchResult)
    (log : List (PageEvent × Option DispatchResult)) :
    visibilityDispatches (x :: log) =
      (if (x.1.isVisibility && x.2.isSome) = true then 1 else 0) + visibilityDispatches log := by
  unfold visibilityDispatches
  by_cases h : (x.1.isVisibility && x.2.isSome) = true
  · simp [List.filter, h]
    omega
  · simp [List.filter, h]

theorem visibilityDispatches_truthy (v : Variant) (rx : RegExpEngine) (cfg : Config)
    (listeners : List String) (evs : List PageEvent)
    (hp : ∀ ev ∈ evs, ev.browser.pathname ≠ "") :
    ∀ last, recordedTruthy last = true →
      visibilityDispatches (runEvents v rx cfg listeners last evs) = 0 := by
  induction evs with
  | nil => intro last _; rfl
  | cons ev rest ih =>
    intro last hl
    rw [runEvents, visibilityDispatches_cons,
      ih (fun e he => hp e (by simp [he])) _
        (react_truthy v rx cfg listeners last ev (hp ev (by simp)) hl)]
    have hnone : (ev.isVisibility && (react v rx cfg listeners last ev).2.isSome) = false := by
      cases ev with
      | visibilitychange w =>
        by_contra hc
        simp only [PageEvent.isVisibility, Bool.true_and, Bool.not_eq_false] at hc
        have := (react_visibility v rx cfg listeners last w hc).1
        rw [hl] at this
        exact absurd this (by decide)
      | pushState w => rfl
      | popstate w => rfl
      | hashchange w => rfl
    simp [hnone]

theorem visibilityDispatches_le_one (v : Variant) (rx : RegExpEngine) (cfg : Config)
    (listeners : List String) (evs : List PageEvent)
    (hp : ∀ ev ∈ evs, ev.browser.pathname ≠ "") :
    ∀ last, visibilityDispatches (runEvents v rx cfg listeners last evs) ≤ 1 := by
  induction evs with
  | nil => intro last; simp [runEvents, visibilityDispatches]
  | cons ev rest ih =>
    intro last
    have hrest : ∀ e ∈ rest, e.browser.pathname ≠ "" := fun e he => hp e (by simp [he])
    rw [runEvents, visibilityDispatches_cons]
    by_cases hc : (ev.isVisibility && (react v rx cfg listeners last ev).2.isSome) = true
    · rw [if_pos hc]
      cases ev with
      | visibilitychange w =>
        simp only [PageEvent.isVisibility, Bool.true_and] at hc
        have hrec := (react_visibility v rx cfg listeners last w hc).2.2.2
        have hw : w.pathname ≠ "" := hp (.visibilitychange w) (by simp)
        rw [visibilityDispatches_truthy v rx cfg listeners rest hrest _
          (by rw [hrec]; exact recordedTruthy_some _ hw)]
      | pushState w => simp [PageEvent.isVisibility] at hc
      | popstate w => simp [PageEvent.isVisibility] at hc
      | hashchange w => simp [PageEvent.isVisibility] at hc
    · rw [if_neg hc]
      have := ih hrest (react v rx cfg listeners last ev).1
      omega

theorem recordedAfter_ne_empty (v : Variant) (rx : RegExpEngine) (cfg : Config)
    (listeners : List String) (evs : List PageEvent)
    (hp : ∀ ev ∈ evs, ev.browser.pathname ≠ "") :
    ∀ last, last ≠ some "" → recordedAfter v rx cfg listeners last evs ≠ some "" := by
  induction evs with
  | nil => intro last h; exact h
  | cons ev rest ih =>
    intro last h
    rw [recordedAfter]
    apply ih (fun e he => hp e (by simp [he]))
    rcases react_recorded v rx cfg listeners last ev with h1 | h1
    · rw [h1]; exact h
    · rw [h1]
      intro hc
      exact hp ev (by simp) (Option.some.inj hc)

theorem recordedTruthy_of_ne (last : Option String) (h1 : last ≠ none) (h2 : last ≠ some "") :
    recordedTruthy last = true := by
  cases last with
  | none => exact absurd rfl h1
  | some p =>
    apply recordedTruthy_some
    intro hp
    exact h2 (by rw [hp])

theorem visibility_in_observerListeners (v : Variant) (w : Browser) :
    "visibilitychange" ∈
        ((if v.outboundLinks then ["click", "auxclick"] else []) ++ ["click", "auxclick"]) ++
          observerListeners v w ↔
      w.visibilityState = "prerender" := by
  unfold observerListeners
  by_cases hp : w.visibilityState = "prerender"
  · simp [hp]
  · by_cases h1 : v.outboundLinks = true <;> by_cases h2 : v.hash = true <;>
      by_cases h3 : w.hasPushState = true <;> simp [hp, h1, h2, h3]

/-- C16. In a build with automatic page views (configuration readable, replay not
throwing, paths non-empty as every `location.pathname` of a page is): when the page is
prerendered at install time, the tracker script dispatches nothing beyond the replayed
queue, records no path and listens to `visibilitychange`; that listener calls the
dispatcher with "pageview" exactly when the page is now visible and no path is recorded;
over every sequence of notifications it dispatches at most one page view, and none once
a path is recorded. When the page is not prerendered at install time, the script
dispatches the initial page view at once and does not listen to `visibilitychange`. -/
theorem prerender_defers_first_pageview (v : Variant) (rx : RegExpEngine) (page : Page)
    (cfg : Config) (pre post : List PageEvent) (last : Option String) (w : Browser)
    (hcfg : readConfig v page.script = some cfg) (hm : v.manual = false)
    (hreplay : (runCalls (fun c => dispatch v rx cfg page.browser c.name c.options)
      page.entry.queue).getLast? ≠ some .threw)
    (hpage : page.browser.pathname ≠ "")
    (hpre : ∀ ev ∈ pre, ev.browser.pathname ≠ "")
    (hpost : ∀ ev ∈ post, ev.browser.pathname ≠ "") :
    (page.browser.visibilityState = "prerender" →
      (install v rx page).results =
        runCalls (fun c => dispatch v rx cfg page.browser c.name c.options) page.entry.queue ∧
      (install v rx page).lastPath = none ∧
      "visibilitychange" ∈ (install v rx page).listeners) ∧
    (page.browser.visibilityState ≠ "prerender" →
      (install v rx page).results =
        runCalls (fun c => dispatch v rx cfg page.browser c.name c.options) page.entry.queue ++
          [dispatch v rx cfg page.browser "pageview" none] ∧
      "visibilitychange" ∉ (install v rx page).listeners) ∧
    (last ≠ some "" → "visibilitychange" ∈ (install v rx page).listeners →
      (react v rx cfg (install v rx page).listeners last (.visibilitychange w)).2 =
        if w.visibilityState = "visible" ∧ last = none then
          some (dispatch v rx cfg w "pageview" none)
        else none) ∧
    visibilityDispatches (runEvents v rx cfg (install v rx page).listeners
      (install v rx page).lastPath (pre ++ post)) ≤ 1 ∧
    (recordedAfter v rx cfg (install v rx page).listeners (install v rx page).lastPath pre
        ≠ none →
      visibilityDispatches (runEvents v rx cfg (install v rx page).listeners
        (recordedAfter v rx cfg (install v rx page).listeners (install v rx page).lastPath pre)
        post) = 0) := by
  obtain ⟨hl, hr, hlast⟩ := install_automatic v rx page cfg hcfg hm hreplay
  refine ⟨?_, ?_, ?_, ?_, ?_⟩
  · intro hp
    refine ⟨by rw [hr, if_pos hp, List.append_nil], by rw [hlast, if_pos hp], ?_⟩
    rw [hl]
    exact (visibility_in_observerListeners v page.browser).mpr hp
  · intro hp
    refine ⟨by rw [hr, if_neg hp], ?_⟩
    rw [hl]
    exact fun h => hp ((visibility_in_observerListeners v page.browser).mp h)
  · intro hne hmem
    simp only [react, hmem, if_true, visibilityListener]
    cases last with
    | some p =>
      have hp : p ≠ "" := fun h => hne (by rw [h])
      simp [recordedTruthy, hp]
    | none =>
      by_cases hvis : w.visibilityState = "visible"
      · simp only [recordedTruthy, hvis, bne_self_eq_false, Bool.or_false, Bool.false_eq_true,
          if_false, and_self, if_true]
        unfold pageviewTrigger
        by_cases hh : v.hash = true
        · simp [hh]
        · simp [hh]
      · simp [recordedTruthy, hvis]
  · exact visibilityDispatches_le_one v rx cfg _ (pre ++ post)
      (fun ev hev => by
        rcases List.mem_append.mp hev with h | h
        · exact hpre ev h
        · exact hpost ev h) _
  · intro hrec
    apply visibilityDispatches_truthy v rx cfg _ post hpost
    apply recordedTruthy_of_ne _ hrec
    apply recordedAfter_ne_empty v rx cfg _ pre hpre
    rw [hlast]
    split
    · simp
    · intro hc
      exact hpage (Option.some.inj hc)

/-- Witness for C16: a prerendered page that becomes visible and is notified twice. -/
theorem prerender_defers_first_pageview_witness :
    (install exclusionsFileDownloads jsRegExp prerenderPage).results = [] ∧
    visibilityDispatches (runEvents exclusionsFileDownloads jsRegExp openConfig
      (install exclusionsFileDownloads jsRegExp prerenderPage).listeners
      (install exclusionsFileDownloads jsRegExp prerenderPage).lastPath
      ([.visibilitychange sampleBrowser] ++ [.visibilitychange sampleBrowser])) ≤ 1 :=
  have h := prerender_defers_first_pageview exclusionsFileDownloads jsRegExp prerenderPage
    openConfig [.visibilitychange sampleBrowser] [.visibilitychange sampleBrowser] none
    sampleBrowser (by rfl) (by rfl) (by decide) (by decide) (by decide) (by decide)
  ⟨(h.1 (by rfl)).1, h.2.2.2.1⟩

/-! ## The ancestor walk -/

theorem findAnchor_eq_some (path : List Node) (a : Node) :
    findAnchor path = some a ↔
      ∃ pre post, path = pre ++ a :: post ∧ a.isLink = true ∧ ∀ n ∈ pre, n.isLink = false := by
  induction path with
  | nil => simp [findAnchor]
  | cons n rest ih =>
    unfold findAnchor
    by_cases hn : n.isLink = true
    · rw [if_pos hn]
      constructor
      · intro h
        simp only [Option.some.injEq] at h
        subst h
        exact ⟨[], rest, rfl, hn, by simp⟩
      · rintro ⟨pre, post, hp, ha, hpre⟩
        cases pre with
        | nil =>
          simp only [List.nil_append, List.cons.injEq] at hp
          rw [hp.1]
        | cons m pre =>
          simp only [List.cons_append, List.cons.injEq] at hp
          have := hpre m (by simp)
          rw [← hp.1, hn] at this
          exact absurd this (by decide)
    · rw [if_neg hn, ih]
      constructor
      · rintro ⟨pre, post, hp, ha, hpre⟩
        refine ⟨n :: pre, post, by rw [hp]; rfl, ha, ?_⟩
        intro m hm
        rcases List.mem_cons.mp hm with rfl | hm
        · simpa using hn
        · exact hpre m hm
      · rintro ⟨pre, post, hp, ha, hpre⟩
        cases pre with
        | nil =>
          simp only [List.nil_append, List.cons.injEq] at hp
          rw [← hp.1] at ha
          exact absurd ha hn
        | cons m pre =>
          simp only [List.cons_append, List.cons.injEq] at hp
          exact ⟨pre, post, hp.2, ha, fun k hk => hpre k (by simp [hk])⟩

theorem findAnchor_eq_none (path : List Node) :
    findAnchor path = none ↔ ∀ n ∈ path, n.isLink = false := by
  induction path with
  | nil => simp [findAnchor]
  | cons n rest ih =>
    unfold findAnchor
    by_cases hn : n.isLink = true
    · simp [hn]
    · rw [if_neg hn, ih]
      simp only [List.mem_cons, forall_eq_or_imp]
      constructor
      · intro h
        exact ⟨by simpa using hn, h⟩
      · intro h
        exact h.2

/-- C17. The walk over the target and its ancestors (a finite chain, the walk is a total
function of it) selects a node exactly when that node is a link, that is its tag name is
defined and lower-cases to `a` and its `href` is non-empty, and no node before it in the
chain is a link; it selects nothing exactly when the chain holds no link, and then both
handlers fire no event, do not cancel the default action and schedule no navigation. -/
theorem ancestor_walk_selects_nearest_link (ft : List String) (w : Browser) (e : MouseEvent) :
    (∀ a, findAnchor e.path = some a ↔
      ∃ pre post, e.path = pre ++ a :: post ∧ a.isLink = true ∧ ∀ n ∈ pre, n.isLink = false) ∧
    (∀ n : Node, n.isLink = true ↔
      ∃ tag, n.tagName = some tag ∧ toLowerCase tag.toList = ['a'] ∧ n.href ≠ "") ∧
    (findAnchor e.path = none ↔ ∀ n ∈ e.path, n.isLink = false) ∧
    ((∀ n ∈ e.path, n.isLink = false) →
      fileDownloadHandler ft e = [] ∧ outboundHandler w e = []) ∧
    (anchorTo "https://example.com/" "example.com" "").isLink = true ∧
    ({ tagName := some "a", href := "https://example.com/", host := "example.com",
       target := "" } : Node).isLink = true ∧
    (anchorTo "" "" "").isLink = false ∧ spanNode.isLink = false := by
  refine ⟨fun a => findAnchor_eq_some e.path a, ?_, findAnchor_eq_none e.path, ?_,
    by rfl, by rfl, by rfl, by rfl⟩
  · intro n
    unfold Node.isLink
    cases h : n.tagName with
    | none => simp
    | some tag => simp
  · intro h
    have hnone := (findAnchor_eq_none e.path).mpr h
    simp [fileDownloadHandler, outboundHandler, hnone]

/-- Witness for C17: a click on a `span` outside any link does nothing. -/
theorem ancestor_walk_selects_nearest_link_witness :
    (∀ n ∈ (plainClick [spanNode, spanNode]).path, n.isLink = false) ∧
    fileDownloadHandler defaultFileTypes (plainClick [spanNode, spanNode]) = [] ∧
    outboundHandler sampleBrowser (plainClick [spanNode, spanNode]) = [] :=
  ⟨by decide,
    (ancestor_walk_selects_nearest_link defaultFileTypes sampleBrowser
      (plainClick [spanNode, spanNode])).2.2.2.1 (by decide)⟩

/-! ## Two handlers on one click -/

theorem mem_outboundHandler_track (w : Browser) (e : MouseEvent) (a : Node) (n : String)
    (o : Options) (ha : findAnchor e.path = some a) :
    Action.track n o ∈ outboundHandler w e ↔
      (a.host ≠ "" ∧ a.host ≠ w.host) ∧
        ((e.type = "auxclick" ∧ e.which = 2) ∨ e.type = "click") ∧
        n = "Outbound Link: Click" ∧ o = urlProps a.href := by
  rw [outboundHandler_eq w e a ha]
  by_cases hx : a.host ≠ "" ∧ a.host ≠ w.host
  · rw [if_pos hx, mem_trackAndDefer_track]
    exact ⟨fun h => ⟨hx, h⟩, fun h => h.2⟩
  · rw [if_neg hx]
    exact ⟨fun h => absurd h (by simp), fun h => absurd h.1 hx⟩

theorem mem_fileDownloadHandler_track (ft : List String) (e : MouseEvent) (a : Node)
    (n : String) (o : Options) (ha : findAnchor e.path = some a) :
    Action.track n o ∈ fileDownloadHandler ft e ↔
      extension a.href ∈ ft ∧
        ((e.type = "auxclick" ∧ e.which = 2) ∨ e.type = "click") ∧
        n = "File Download" ∧ o = urlProps a.href := by
  rw [fileDownloadHandler_eq ft e a ha]
  by_cases hx : extension a.href ∈ ft
  · rw [if_pos hx, mem_trackAndDefer_track]
    exact ⟨fun h => ⟨hx, h⟩, fun h => h.2⟩
  · rw [if_neg hx]
    exact ⟨fun h => absurd h (by simp), fun h => absurd h.1 hx⟩

/-- C18, as stated, fails: a `mailto:` link to an address under `.zip` has an empty
host, which differs from the host of the page, and its extension `zip` is tracked; a
primary click on it fires "File Download" and no "Outbound Link: Click". -/
theorem empty_host_link_is_not_outbound :
    mailLink.host ≠ sampleBrowser.host ∧
    extension mailLink.href ∈ openConfig.fileTypes ∧
    clickHandlers compatExclusionsFileDownloadsHashLocalManualOutboundLinks openConfig
        sampleBrowser (plainClick [mailLink]) =
      [.track "File Download"
        { meta := .undefined, props := .object [("url", mailLink.href)], callback := .undefined,
          u := .undefined }, .setTimeout 150 mailLink.href,
       .preventDefault] := by
  refine ⟨by decide, by decide, by rfl⟩

/-- C18, amended. In the outbound-links build, for every primary click or middle-button
`auxclick` whose walk selects the anchor `a`: "Outbound Link: Click" with
`props.url = a.href` is fired exactly when the host of `a` is non-empty and differs from
the host of the page, and "File Download" with `props.url = a.href` is fired exactly
when the extension of `a.href` is tracked; each condition ignores the other check, and
both events are fired when both hold. -/
theorem outbound_and_download_independent (v : Variant) (cfg : Config) (w : Browser)
    (e : MouseEvent) (a : Node) (hv : v.outboundLinks = true)
    (hev : e.type = "click" ∨ (e.type = "auxclick" ∧ e.which = 2))
    (ha : findAnchor e.path = some a) :
    (Action.track "Outbound Link: Click"
        { meta := .undefined, props := .object [("url", a.href)], callback := .undefined,
          u := .undefined } ∈ clickHandlers v cfg w e ↔
      a.host ≠ "" ∧ a.host ≠ w.host) ∧
    (Action.track "File Download"
        { meta := .undefined, props := .object [("url", a.href)], callback := .undefined,
          u := .undefined } ∈ clickHandlers v cfg w e ↔
      extension a.href ∈ cfg.fileTypes) ∧
    (a.host ≠ "" → a.host ≠ w.host → extension a.href ∈ cfg.fileTypes →
      Action.track "Outbound Link: Click"
        { meta := .undefined, props := .object [("url", a.href)], callback := .undefined,
          u := .undefined } ∈ clickHandlers v cfg w e ∧
      Action.track "File Download"
        { meta := .undefined, props := .object [("url", a.href)], callback := .undefined,
          u := .undefined } ∈ clickHandlers v cfg w e) := by
  have hmem : ∀ x, x ∈ clickHandlers v cfg w e ↔
      x ∈ outboundHandler w e ∨ x ∈ fileDownloadHandler cfg.fileTypes e := by
    intro x
    simp [clickHandlers, hv]
  have h1 : Action.track "Outbound Link: Click"
        { meta := .undefined, props := .object [("url", a.href)], callback := .undefined,
          u := .undefined } ∈ clickHandlers v cfg w e ↔
      a.host ≠ "" ∧ a.host ≠ w.host := by
    rw [hmem, mem_outboundHandler_track w e a _ _ ha,
      mem_fileDownloadHandler_track cfg.fileTypes e a _ _ ha]
    constructor
    · rintro (h | h)
      · exact h.1
      · exact absurd h.2.2.1 (by decide)
    · intro h
      exact Or.inl ⟨h, hev.symm, rfl, rfl⟩
  have h2 : Action.track "File Download"
        { meta := .undefined, props := .object [("url", a.href)], callback := .undefined,
          u := .undefined } ∈ clickHandlers v cfg w e ↔
      extension a.href ∈ cfg.fileTypes := by
    rw [hmem, mem_outboundHandler_track w e a _ _ ha,
      mem_fileDownloadHandler_track cfg.fileTypes e a _ _ ha]
    constructor
    · rintro (h | h)
      · exact absurd h.2.2.1 (by decide)
      · exact h.1
    · intro h
      exact Or.inr ⟨h, hev.symm, rfl, rfl⟩
  exact ⟨h1, h2, fun ha1 ha2 hx => ⟨h1.mpr ⟨ha1, ha2⟩, h2.mpr hx⟩⟩

/-- Witness for C18 (amended): a primary click on a link to a PDF on another site fires
both events. -/
theorem outbound_and_download_independent_witness :
    Action.track "Outbound Link: Click"
        { meta := .undefined, props := .object [("url", otherSitePdfLink.href)], callback := .undefined,
          u := .undefined } ∈
      clickHandlers compatExclusionsFileDownloadsHashLocalManualOutboundLinks openConfig
        sampleBrowser (plainClick [otherSitePdfLink]) ∧
    Action.track "File Download"
        { meta := .undefined, props := .object [("url", otherSitePdfLink.href)], callback := .undefined,
          u := .undefined } ∈
      clickHandlers compatExclusionsFileDownloadsHashLocalManualOutboundLinks openConfig
        sampleBrowser (plainClick [otherSitePdfLink]) :=
  (outbound_and_download_independent compatExclusionsFileDownloadsHashLocalManualOutboundLinks
    openConfig sampleBrowser (plainClick [otherSitePdfLink]) otherSitePdfLink (by rfl)
    (Or.inl (by rfl)) (by rfl)).2.2 (by decide) (by decide) (by decide)

/-! ## The manual build -/

/-- C20. In a build with `manual` the tracker script dispatches exactly the replayed
queue entries; it adds no `hashchange`, `popstate` or `visibilitychange` listener and
does not wrap `history.pushState`, so no notification, in any sequence, reaches the
dispatcher; and the click handlers never call the entry point with "pageview". -/
theorem manual_build_has_no_automatic_pageview (v : Variant) (rx : RegExpEngine) (page : Page)
    (hm : v.manual = true) :
    (∀ cfg, readConfig v page.script = some cfg →
      (install v rx page).results =
        runCalls (fun c => dispatch v rx cfg page.browser c.name c.options) page.entry.queue) ∧
    (readConfig v page.script = none → (install v rx page).results = []) ∧
    ("hashchange" ∉ (install v rx page).listeners ∧ "popstate" ∉ (install v rx page).listeners ∧
      "visibilitychange" ∉ (install v rx page).listeners) ∧
    (∀ cfg last ev, react v rx cfg (install v rx page).listeners last ev = (last, none)) ∧
    (∀ cfg last evs, ∀ x ∈ runEvents v rx cfg (install v rx page).listeners last evs,
      x.2 = none) ∧
    (∀ cfg w e name o, Action.track name o ∈ clickHandlers v cfg w e → name ≠ "pageview") := by
  have hlist : "hashchange" ∉ (install v rx page).listeners ∧
      "popstate" ∉ (install v rx page).listeners ∧
      "visibilitychange" ∉ (install v rx page).listeners := by
    unfold install
    cases hc : readConfig v page.script with
    | none => simp
    | some cfg =>
      simp only [hm, if_true]
      split <;> (by_cases ho : v.outboundLinks = true <;> simp [ho])
  have hreact : ∀ cfg last ev,
      react v rx cfg (install v rx page).listeners last ev = (last, none) := by
    intro cfg last ev
    cases ev <;> simp [react, hlist.1, hlist.2.1, hlist.2.2]
  refine ⟨?_, ?_, hlist, hreact, ?_, ?_⟩
  · intro cfg hcfg
    unfold install
    simp only [hcfg, hm, if_true]
    split <;> rfl
  · intro hcfg
    unfold install
    simp only [hcfg]
  · intro cfg last evs
    induction evs generalizing last with
    | nil => simp [runEvents]
    | cons ev rest ih =>
      intro x hx
      rw [runEvents, hreact] at hx
      rcases List.mem_cons.mp hx with rfl | hx
      · rfl
      · exact ih _ x hx
  · intro cfg w e name o h
    simp only [clickHandlers, List.mem_append] at h
    cases hf : findAnchor e.path with
    | none => simp [outboundHandler, fileDownloadHandler, hf] at h
    | some a =>
      rcases h with h | h
      · split at h
        · rw [(mem_outboundHandler_track w e a name o hf).mp h |>.2.2.1]
          decide
        · simp at h
      · rw [(mem_fileDownloadHandler_track cfg.fileTypes e a name o hf).mp h |>.2.2.1]
        decide

/-- Witness for C20: the manual build on a page with one queued page view dispatches
that one call, and a later hash change dispatches nothing. -/
theorem manual_build_has_no_automatic_pageview_witness :
    compatExclusionsFileDownloadsHashLocalManualOutboundLinks.manual = true ∧
    (install compatExclusionsFileDownloadsHashLocalManualOutboundLinks jsRegExp manualPage).results
      = runCalls (fun c => dispatch compatExclusionsFileDownloadsHashLocalManualOutboundLinks
          jsRegExp openConfig manualPage.browser c.name c.options) manualPage.entry.queue ∧
    react compatExclusionsFileDownloadsHashLocalManualOutboundLinks jsRegExp openConfig
      (install compatExclusionsFileDownloadsHashLocalManualOutboundLinks jsRegExp manualPage).listeners
      none (.hashchange browserAtA) = (none, none) :=
  have h := manual_build_has_no_automatic_pageview
    compatExclusionsFileDownloadsHashLocalManualOutboundLinks jsRegExp manualPage rfl
  ⟨rfl, h.1 openConfig (by rfl), h.2.2.2.1 openConfig none (.hashchange browserAtA)⟩

/-! ## Patterns with one `*` -/

theorem replaceStarStar_cons_ne (x : Char) (l : List Char) (hx : x ≠ '*') :
    replaceStarStar (x :: l) = x :: replaceStarStar l := by
  cases l with
  | nil => rfl
  | cons d t => rw [replaceStarStar, if_neg (fun h => hx h.1)]

theorem replaceStarStar_star_cons (l : List Char) (h : ∀ c ∈ l, c ≠ '*') :
    replaceStarStar ('*' :: l) = '*' :: l := by
  cases l with
  | nil => rfl
  | cons d t =>
    rw [replaceStarStar, if_neg (fun hc => h d (by simp) hc.2), replaceStarStar_eq_self _ h]

theorem replaceStarStar_single (pre post : List Char) (c : Char)
    (hpre : ∀ x ∈ pre, x ≠ '*') (hc : c ≠ '*') (hpost : ∀ x ∈ post, x ≠ '*') :
    replaceStarStar (pre ++ c :: '*' :: post) = pre ++ c :: '*' :: post := by
  induction pre with
  | nil =>
    rw [List.nil_append, replaceStarStar_cons_ne c _ hc, replaceStarStar_star_cons post hpost]
  | cons x pre ih =>
    rw [List.cons_append, replaceStarStar_cons_ne x _ (hpre x (by simp)),
      ih (fun y hy => hpre y (by simp [hy]))]

theorem replaceStar_cons_next (x : Char) (l : List Char) (h : l.head? ≠ some '*') :
    replaceStar (x :: l) = x :: replaceStar l := by
  cases l with
  | nil => rfl
  | cons d t =>
    rw [replaceStar, if_neg]
    intro hc
    exact h (by simp [hc.2])

theorem replaceStar_single (pre post : List Char) (c : Char)
    (hpre : ∀ x ∈ pre, x ≠ '*') (hc : c ≠ '*') (hpost : ∀ x ∈ post, x ≠ '*') :
    replaceStar (pre ++ c :: '*' :: post) =
      if c = '.' then pre ++ c :: '*' :: post
      else pre ++ c :: ('[' :: '^' :: '\\' :: 's' :: '/' :: ']' :: '*' :: post) := by
  induction pre with
  | nil =>
    rw [List.nil_append, List.nil_append]
    by_cases hdot : c = '.'
    · rw [if_pos hdot, replaceStar, if_neg (fun h => h.1 hdot), replaceStar_cons_next,
        replaceStar_eq_self post hpost]
      cases post with
      | nil => simp
      | cons d t =>
        simp only [List.head?_cons, ne_eq, Option.some.injEq]
        exact hpost d (by simp)
    · rw [if_neg hdot, replaceStar, if_pos ⟨hdot, rfl⟩, replaceStar_eq_self post hpost]
  | cons x pre ih =>
    have hhead : (pre ++ c :: '*' :: post).head? ≠ some '*' := by
      cases pre with
      | nil => simpa using hc
      | cons y pre => simpa using hpre y (by simp)
    rw [List.cons_append, replaceStar_cons_next x _ hhead,
      ih (fun y hy => hpre y (by simp [hy]))]
    by_cases hdot : c = '.'
    · simp [hdot]
    · simp [hdot]

/-- The source compiled for a pattern of ordinary characters and `.` with one `*` that
follows a character `c`: the `*` becomes `[^\s/]*` unless `c` is `.`. -/
theorem globSource_single (pre post : List Char) (c : Char)
    (hpre : ∀ x ∈ pre, isOrdinary x = true ∨ x = '.') (hc : isOrdinary c = true ∨ c = '.')
    (hpost : ∀ x ∈ post, isOrdinary x = true ∨ x = '.') :
    globSource (pre ++ c :: '*' :: post) =
      if c = '.' then '^' :: (pre ++ ['.', '*'] ++ post ++ ['/', '?', '$'])
      else '^' :: (pre ++ [c] ++ ['[', '^', '\\', 's', '/', ']', '*'] ++ post ++ ['/', '?', '$']) := by
  have hws : ∀ x ∈ pre ++ c :: '*' :: post, isWhiteSpace x = false := by
    intro x hx
    simp only [List.mem_append, List.mem_cons] at hx
    rcases hx with h | rfl | rfl | h
    · exact isOrdinary_or_dot_not_space x (hpre x h)
    · exact isOrdinary_or_dot_not_space x hc
    · decide
    · exact isOrdinary_or_dot_not_space x (hpost x h)
  unfold globSource
  rw [trim_eq_self _ hws,
    replaceStarStar_single pre post c (fun x hx => isOrdinary_or_dot_ne_star x (hpre x hx))
      (isOrdinary_or_dot_ne_star c hc) (fun x hx => isOrdinary_or_dot_ne_star x (hpost x hx)),
    replaceStar_single pre post c (fun x hx => isOrdinary_or_dot_ne_star x (hpre x hx))
      (isOrdinary_or_dot_ne_star c hc) (fun x hx => isOrdinary_or_dot_ne_star x (hpost x hx))]
  by_cases hdot : c = '.'
  · simp [hdot]
  · simp [hdot]

theorem foldlM_class (st : PState) (hm : st.mode = .normal) :
    ['[', '^', '\\', 's', '/', ']', '*'].foldlM PState.step st =
      .ok { stack := st.stack,
            cur := { alts := st.cur.alts, terms := Re.star notSpaceSlash :: st.cur.terms },
            last := .quantified, mode := .normal } := by
  cases st with
  | mk stack cur last mode =>
    simp only at hm
    subst hm
    rfl

theorem foldlM_dot_star (st : PState) (hm : st.mode = .normal) :
    ['.', '*'].foldlM PState.step st =
      .ok { stack := st.stack,
            cur := { alts := st.cur.alts, terms := Re.star .dot :: st.cur.terms },
            last := .quantified, mode := .normal } := by
  cases st with
  | mk stack cur last mode =>
    simp only at hm
    subst hm
    rfl

theorem foldlM_tail (st : PState) (hm : st.mode = .normal) :
    ['/', '?', '$'].foldlM PState.step st =
      .ok { stack := st.stack,
            cur := { alts := st.cur.alts,
                     terms := Re.eol :: Re.opt (.chr '/') :: st.cur.terms },
            last := .none, mode := .normal } := by
  cases st with
  | mk stack cur last mode =>
    simp only at hm
    subst hm
    rfl

theorem foldlM_step_append (a b : List Char) (st st2 : PState)
    (h : a.foldlM PState.step st = .ok st2) :
    (a ++ b).foldlM PState.step st = b.foldlM PState.step st2 := by
  rw [List.foldlM_append, h]
  rfl

/-- What `new RegExp` reads from `^`, plain characters `front`, a part `mid` that the
reader turns into one starred atom `x`, plain characters `post`, and `/?$`. -/
theorem parse_star (front mid post : List Char) (x : Re)
    (hfront : ∀ c ∈ front, isOrdinary c = true ∨ c = '.')
    (hpost : ∀ c ∈ post, isOrdinary c = true ∨ c = '.')
    (hmid : ∀ st : PState, st.mode = .normal →
      mid.foldlM PState.step st =
        .ok { stack := st.stack,
              cur := { alts := st.cur.alts, terms := Re.star x :: st.cur.terms },
              last := .quantified, mode := .normal }) :
    parseRegExp ('^' :: (front ++ mid ++ post ++ ['/', '?', '$'])) =
      .ok (.seq .bol (atomsThen front (.seq (.star x) (atomsThen post globTail)))) := by
  unfold parseRegExp
  have h0 : PState.step PState.init '^' = .ok (PState.init.assertion .bol) := by rfl
  obtain ⟨l1, h1⟩ := foldlM_plain front hfront (PState.init.assertion .bol) rfl
  have h1b : front.foldlM PState.step (PState.init.assertion .bol) =
      .ok (⟨[], ⟨[], (front.map atomOf).reverse ++ [Re.bol]⟩, l1, .normal⟩ : PState) := h1
  have h2 : mid.foldlM PState.step
      (⟨[], ⟨[], (front.map atomOf).reverse ++ [Re.bol]⟩, l1, .normal⟩ : PState) =
      .ok (⟨[], ⟨[], Re.star x :: ((front.map atomOf).reverse ++ [Re.bol])⟩, .quantified,
        .normal⟩ : PState) := hmid _ rfl
  obtain ⟨l3, h3⟩ := foldlM_plain post hpost
    (⟨[], ⟨[], Re.star x :: ((front.map atomOf).reverse ++ [Re.bol])⟩, .quantified, .normal⟩ :
      PState) rfl
  have h3b : post.foldlM PState.step
      (⟨[], ⟨[], Re.star x :: ((front.map atomOf).reverse ++ [Re.bol])⟩, .quantified, .normal⟩ :
        PState) =
      .ok (⟨[], ⟨[], (post.map atomOf).reverse ++
        (Re.star x :: ((front.map atomOf).reverse ++ [Re.bol]))⟩, l3, .normal⟩ : PState) := h3
  have h4 : ['/', '?', '$'].foldlM PState.step
      (⟨[], ⟨[], (post.map atomOf).reverse ++
        (Re.star x :: ((front.map atomOf).reverse ++ [Re.bol]))⟩, l3, .normal⟩ : PState) =
      .ok (⟨[], ⟨[], Re.eol :: Re.opt (.chr '/') :: ((post.map atomOf).reverse ++
        (Re.star x :: ((front.map atomOf).reverse ++ [Re.bol])))⟩, .none, .normal⟩ : PState) :=
    foldlM_tail _ rfl
  have hall : (front ++ mid ++ post ++ ['/', '?', '$']).foldlM PState.step
      (PState.init.assertion .bol) =
      .ok (⟨[], ⟨[], Re.eol :: Re.opt (.chr '/') :: ((post.map atomOf).reverse ++
        (Re.star x :: ((front.map atomOf).reverse ++ [Re.bol])))⟩, .none, .normal⟩ : PState) := by
    rw [List.append_assoc, List.append_assoc, foldlM_step_append _ _ _ _ h1b,
      foldlM_step_append _ _ _ _ h2, foldlM_step_append _ _ _ _ h3b]
    exact h4
  rw [List.foldlM_cons, h0]
  simp only [bind, Except.bind]
  rw [hall]
  have hterms : (Re.eol :: Re.opt (.chr '/') :: ((post.map atomOf).reverse ++
      (Re.star x :: ((front.map atomOf).reverse ++ [Re.bol])))) =
      ([Re.bol] ++ front.map atomOf ++ [Re.star x] ++ post.map atomOf ++
        [Re.opt (.chr '/'), Re.eol]).reverse := by simp
  simp only [PState.finish, Frame.close, List.foldl_nil]
  rw [hterms, mkSeq_reverse, atomsThen_eq, atomsThen_eq]
  simp [globTail]

theorem mem_ends_star_notSpaceSlash (n : Nat) (s x : List Char) :
    x ∈ (Re.star notSpaceSlash).ends n s ↔
      ∃ run, s = run ++ x ∧ ∀ c ∈ run, isWhiteSpace c = false ∧ c ≠ '/' := by
  unfold notSpaceSlash
  rw [mem_ends_star_cls]
  simp only [classAccepts_not_space_slash]

/-- What the expression read by `parse_star` accepts, when the starred atom accepts
exactly the runs of characters satisfying `P`. -/
theorem test_star (front post : List Char) (x : Re) (P : Char → Prop) (p : List Char)
    (hx : ∀ n s y, y ∈ (Re.star x).ends n s ↔ ∃ run, s = run ++ y ∧ ∀ c ∈ run, P c) :
    (Re.seq .bol (atomsThen front (.seq (.star x) (atomsThen post globTail)))).test p = true ↔
      ∃ q1 run q2, List.Forall₂ charAgrees front q1 ∧ (∀ c ∈ run, P c) ∧
        List.Forall₂ charAgrees post q2 ∧
        (p = q1 ++ run ++ q2 ∨ p = q1 ++ run ++ q2 ++ ['/']) := by
  rw [test_anchored]
  simp only [mem_ends_atomsThen, mem_ends_seq, hx, mem_ends_tail]
  constructor
  · rintro ⟨y, q1, t, hp, h1, u, ⟨run, hrun, hP⟩, q2, t2, hu, h2, ht2, -⟩
    refine ⟨q1, run, q2, h1, hP, h2, ?_⟩
    rcases ht2 with h | h
    · left
      rw [hp, hrun, hu, h]
      simp
    · right
      rw [hp, hrun, hu, h]
      simp
  · rintro ⟨q1, run, q2, h1, hP, h2, h | h⟩
    · exact ⟨[], q1, run ++ q2, by rw [h]; simp, h1, q2, ⟨run, rfl, hP⟩, q2, [], by simp, h2,
        Or.inl rfl, rfl⟩
    · exact ⟨[], q1, run ++ q2 ++ ['/'], by rw [h]; simp, h1, q2 ++ ['/'],
        ⟨run, by simp, hP⟩, q2, ['/'], rfl, h2, Or.inr rfl, rfl⟩

/-- C19, as stated, fails: the pattern `/files/.*` keeps `.*`, so its matcher accepts
`/files/.a/b` (and `/files/.hidden`); and for the pattern `*` no matcher is produced, the
source `^*/?$` being a syntax error. -/
theorem star_after_dot_or_first_not_rewritten :
    globSource "/files/.*".toList = "^/files/.*/?$".toList ∧
    globMatches "/files/.*" "/files/.hidden" = some true ∧
    globMatches "/files/.*" "/files/.a/b" = some true ∧
    globSource "*".toList = "^*/?$".toList ∧
    parseRegExp (globSource "*".toList) = .error .syntaxError := by
  refine ⟨by rfl, by rfl, by rfl, by rfl, by rfl⟩

/-- C19, amended. For every pattern made of ordinary path characters and `.` with one
`*` that follows a character `c`, the compiled matcher is well-formed. When `c` is not
`.`, the `*` stands for exactly the possibly empty runs of characters that are neither
white space nor `/`. When `c` is `.`, the `*` is left as written and `.*` stands for
exactly the possibly empty runs of characters other than line terminators, `/`
included. In both cases the other characters are matched position by position, and one
trailing `/` is tolerated. -/
theorem glob_single_star_matcher (pre post : List Char) (c : Char) (p : String)
    (hpre : ∀ x ∈ pre, isOrdinary x = true ∨ x = '.') (hc : isOrdinary c = true ∨ c = '.')
    (hpost : ∀ x ∈ post, isOrdinary x = true ∨ x = '.') :
    ∃ b, globMatches (String.mk (pre ++ c :: '*' :: post)) p = some b ∧
      (c ≠ '.' →
        (b = true ↔ ∃ q1 run q2, List.Forall₂ charAgrees (pre ++ [c]) q1 ∧
          (∀ x ∈ run, isWhiteSpace x = false ∧ x ≠ '/') ∧ List.Forall₂ charAgrees post q2 ∧
          (p.toList = q1 ++ run ++ q2 ∨ p.toList = q1 ++ run ++ q2 ++ ['/']))) ∧
      (c = '.' →
        (b = true ↔ ∃ q1 run q2, List.Forall₂ charAgrees pre q1 ∧
          (∀ x ∈ run, isLineTerminator x = false) ∧ List.Forall₂ charAgrees post q2 ∧
          (p.toList = q1 ++ run ++ q2 ∨ p.toList = q1 ++ run ++ q2 ++ ['/']))) := by
  have hsrc := globSource_single pre post c hpre hc hpost
  by_cases hdot : c = '.'
  · rw [if_pos hdot] at hsrc
    have hparse := parse_star pre ['.', '*'] post .dot hpre hpost foldlM_dot_star
    refine ⟨_, by
      simp only [globMatches, jsRegExp]
      rw [show (String.mk (pre ++ c :: '*' :: post)).toList = pre ++ c :: '*' :: post from rfl,
        hsrc, hparse]
      rfl, fun h => absurd hdot h, fun _ => ?_⟩
    exact test_star pre post .dot (fun x => isLineTerminator x = false) p.toList
      (fun n s y => mem_ends_star_dot n s y)
  · rw [if_neg hdot] at hsrc
    have hfront : ∀ x ∈ pre ++ [c], isOrdinary x = true ∨ x = '.' := by
      intro x hx
      rcases List.mem_append.mp hx with h | h
      · exact hpre x h
      · rw [List.mem_singleton.mp h]; exact hc
    have hparse := parse_star (pre ++ [c]) ['[', '^', '\\', 's', '/', ']', '*'] post notSpaceSlash
      hfront hpost foldlM_class
    refine ⟨_, by
      simp only [globMatches, jsRegExp]
      rw [show (String.mk (pre ++ c :: '*' :: post)).toList = pre ++ c :: '*' :: post from rfl,
        hsrc, hparse]
      rfl, fun _ => ?_, fun h => absurd h hdot⟩
    exact test_star (pre ++ [c]) post notSpaceSlash
      (fun x => isWhiteSpace x = false ∧ x ≠ '/') p.toList
      (fun n s y => mem_ends_star_notSpaceSlash n s y)

/-- Witness for C19 (amended): the pattern `/files/.*` and the path `/files/.a/b`. -/
theorem glob_single_star_matcher_witness :
    ∃ b, globMatches (String.mk ("/files/".toList ++ '.' :: '*' :: [])) "/files/.a/b" = some b ∧
      (b = true ↔ ∃ q1 run q2, List.Forall₂ charAgrees "/files/".toList q1 ∧
        (∀ x ∈ run, isLineTerminator x = false) ∧ List.Forall₂ charAgrees [] q2 ∧
        ("/files/.a/b".toList = q1 ++ run ++ q2 ∨
          "/files/.a/b".toList = q1 ++ run ++ q2 ++ ['/'])) :=
  match glob_single_star_matcher "/files/".toList [] '.' "/files/.a/b" (by decide)
      (Or.inr rfl) (by decide) with
  | ⟨b, hb, _, h2⟩ => ⟨b, hb, h2 rfl⟩

end Tracker
